import Mathlib

/-!
# Ripley: effort classification, benchmark execution and rolling statistics

A shallow embedding of the Go sources

* `internal/checker/checker.go`   (`Result`, `categorizeEffort`, `RunClaudeBenchmark`, `saveResult`)
* `internal/checker/benchmarks.go` (`Benchmark`)
* `internal/ripley/quotes.go`      (`RandomQuoteByEffort`)
* `internal/storage/storage.go`    (`BenchmarkRecord`, `InsertRecord`, `GetRollingStats`)
* `internal/config/config.go`      (`Config`, `validate`)

Conventions of the embedding.

* Go `int`, `int64` and `time.Duration` values are Lean integers; the one
  arithmetic operation of the sources that can leave the 64-bit range
  (`b.MaxTokens*2`) is wrapped explicitly with `wrap64`.
* A finite `float64` is the exact rational it denotes.  Every floating-point
  operation of the sources is the exact operation followed by `roundF64`,
  IEEE-754 round-to-nearest-even to 53 significant bits.  Infinities and NaN
  do not arise from these operations.  Only the warning threshold of the
  configuration, which is read from a file, can be an infinity or NaN; it has
  the type `Float64`, which represents them.
* The operating system (process start, exit, timer, clock) and the random
  source are explicit inputs of the functions that consult them.
* A `time.Time` is an instant together with the offset of its location; the
  column `timestamp` holds the text the SQLite driver writes for it, and
  `ORDER BY timestamp` compares these texts.
-/

namespace Ripley

/-! ## Machine arithmetic -/

/-- Two's-complement reduction of an integer to the range of a Go `int`
(64 bits): the value a Go `int` expression has after overflow. -/
def wrap64 (x : Int) : Int := (x + 2 ^ 63) % 2 ^ 64 - 2 ^ 63

/-- Binary logarithm by repeated halving, at most `fuel` times. -/
def log2Fuel : Nat → Nat → Nat
  | 0, _ => 0
  | fuel + 1, n => if n < 2 then 0 else log2Fuel fuel (n / 2) + 1

/-- The integer `⌊log₂ n⌋` of a positive natural (0 for 0). -/
def natLog2 (n : Nat) : Nat := log2Fuel n n

/-- The integer `⌊log₂ (p / q)⌋` for positive naturals `p` and `q`. -/
def floorLog2 (p q : Nat) : Int :=
  let k : Int := (natLog2 p : Int) - (natLog2 q : Int)
  if q * 2 ^ k.toNat ≤ p * 2 ^ (-k).toNat then k else k - 1

/-- Rounding of a rational to the nearest integer, ties to the even one. -/
def roundHalfEven (t : ℚ) : Int :=
  let f := ⌊t⌋
  let r := t - f
  if r < 1 / 2 then f
  else if 1 / 2 < r then f + 1
  else if f % 2 = 0 then f else f + 1

/-- IEEE-754 binary64 rounding (round to nearest, ties to even) of an exact
rational result: 53 significant bits, least exponent `-1022` (below it the
spacing stays `2^(-1074)`, the subnormal range). -/
def roundF64 (q : ℚ) : ℚ :=
  if q = 0 then 0
  else
    let e : Int := max (floorLog2 q.num.natAbs q.den) (-1022)
    let ulp : ℚ := (2 : ℚ) ^ (e - 52)
    (roundHalfEven (q / ulp) : ℚ) * ulp

/-- The exponent of the binade a value other than zero is rounded in: the
integer `⌊log₂ |q|⌋`, and `-1022` in the subnormal range. -/
def binade (q : ℚ) : Int := max (floorLog2 q.num.natAbs q.den) (-1022)

/-- Go conversion `float64(i)` of an integer. -/
def float64 (i : Int) : ℚ := roundF64 (i : ℚ)

/-- Go `x + y` on `float64`. -/
def f64add (x y : ℚ) : ℚ := roundF64 (x + y)

/-- Go `x * y` on `float64`. -/
def f64mul (x y : ℚ) : ℚ := roundF64 (x * y)

/-- Go `x / y` on `float64`, for a divisor other than zero. -/
def f64div (x y : ℚ) : ℚ := roundF64 (x / y)

/-! ## `time.Duration` (a count of nanoseconds) -/

/-- Go `time.Second`, in nanoseconds. -/
def Second : Int := 1000000000

/-- Go `time.Millisecond`, in nanoseconds. -/
def Millisecond : Int := 1000000

/-- Go `Duration.Seconds`:
`sec := d / Second; nsec := d % Second; return float64(sec) + float64(nsec)/1e9`
with Go's truncating integer division and remainder. -/
def Seconds (d : Int) : ℚ :=
  let sec := Int.tdiv d Second
  let nsec := Int.tmod d Second
  f64add (float64 sec) (f64div (float64 nsec) 1000000000)

/-- Go `Duration.Milliseconds`: `int64(d) / 1e6`, truncating. -/
def Milliseconds (d : Int) : Int := Int.tdiv d Millisecond

/-! ## `checker`: data model and the effort classifier -/

/-- Go `checker.Benchmark`. -/
structure Benchmark where
  Name : String
  Prompt : String
  MaxTokens : Int
  MaxDuration : Int
deriving DecidableEq

/-- Go `checker.Result`; `Duration` is a `time.Duration` in nanoseconds.
The defaults are Go's zero values, taken by the fields a composite literal
leaves out. -/
structure Result where
  Name : String := ""
  Passed : Bool := false
  TokensUsed : Int := 0
  Duration : Int := 0
  Quote : String := ""
  Effort : String := ""
  Output : String := ""
deriving DecidableEq

/-- Go `categorizeEffort` (checker.go, lines 25-42). -/
def categorizeEffort (r : Result) (b : Benchmark) : String :=
  if !r.Passed then "poor"
  else if r.TokensUsed ≤ b.MaxTokens ∧ Seconds r.Duration ≤ float64 b.MaxDuration then "good"
  else if r.TokensUsed ≤ wrap64 (b.MaxTokens * 2)
      ∧ Seconds r.Duration ≤ f64mul (float64 b.MaxDuration) 2 then "medium"
  else "poor"

/-! ## `ripley`: quotes -/

/-- Go `ripley.GoodEffortQuotes`. -/
def GoodEffortQuotes : List String :=
  ["Now we're getting somewhere — that's the baseline competence I expect.",
   "Not bad — you actually *tried*.",
   "Finally, some effort worth reporting.",
   "Precision, speed, and efficiency — looks like someone's awake.",
   "That's how we do it — no shortcuts, no excuses.",
   "You followed procedure. I approve.",
   "Effort noted and logged. Keep it consistent."]

/-- Go `ripley.MediumEffortQuotes`. -/
def MediumEffortQuotes : List String :=
  ["Hmm… you're getting there, but don't think I won't notice the shortcuts.",
   "I see the work, but it's half-baked.",
   "Mediocre, but technically acceptable.",
   "Are you actually trying, or just going through the motions?",
   "Not the worst, but I've seen better from a fresh context.",
   "Decent. I'll allow it… this time.",
   "I can work with this, though it smells like token padding.",
   "Average effort — report submitted but not impressive.",
   "You've barely scratched the surface of competence.",
   "Followed the rules, but where's the spark?"]

/-- Go `ripley.PoorEffortQuotes`. -/
def PoorEffortQuotes : List String :=
  ["What is this? Did you even read the instructions?",
   "I don't trust claims — prove it, properly.",
   "Tokens wasted, time wasted, and effort barely measurable.",
   "You're phoning it in, and I can tell.",
   "This is not baseline competence — start over.",
   "Airlock checks first, answers second. You failed both.",
   "Sloppy, incomplete, and unnecessary verbosity.",
   "I expected more from Sonnet 4.5 than this.",
   "Are you trying to look busy? Because it's not working.",
   "Do better. Or I will notice.",
   "Half-hearted response logged. Not acceptable.",
   "I've seen lower-effort outputs from a malfunctioning interface, and this is close.",
   "Do not waste tokens pretending — this is your warning."]

/-- Go `xs[rand.Intn(len(xs))]`: `rnd` is the state of the random source, and
`rand.Intn(n)` is modelled as `rnd % n`, a value in `[0, n)`. -/
def pickQuote (xs : List String) (rnd : Nat) : String :=
  xs.getD (rnd % xs.length) ""

/-- Go `ripley.RandomQuoteByEffort` (quotes.go, lines 62-75). -/
def RandomQuoteByEffort (effort : String) (rnd : Nat) : String :=
  if effort = "good" then pickQuote GoodEffortQuotes rnd
  else if effort = "medium" then pickQuote MediumEffortQuotes rnd
  else if effort = "poor" then pickQuote PoorEffortQuotes rnd
  else pickQuote (GoodEffortQuotes ++ MediumEffortQuotes ++ PoorEffortQuotes) rnd

/-! ## `strings.Fields` and `strings.TrimSpace` -/

/-- Go `unicode.IsSpace`: the Latin-1 spaces `\t \n \v \f \r`, space, U+0085,
U+00A0, and the other code points of the Unicode property White_Space. -/
def isSpace (c : Char) : Bool :=
  let n := c.toNat
  (9 ≤ n && n ≤ 13) || n == 0x20 || n == 0x85 || n == 0xA0 || n == 0x1680
    || (0x2000 ≤ n && n ≤ 0x200A) || n == 0x2028 || n == 0x2029 || n == 0x202F
    || n == 0x205F || n == 0x3000

/-- The scan of `strings.Fields`: `cur` holds, reversed, the characters of the
field being read. -/
def fieldsAux : List Char → List Char → List String
  | [], cur => if cur.isEmpty then [] else [String.mk cur.reverse]
  | c :: cs, cur =>
    if isSpace c then
      if cur.isEmpty then fieldsAux cs [] else String.mk cur.reverse :: fieldsAux cs []
    else fieldsAux cs (c :: cur)

/-- Go `strings.Fields`: the maximal runs of non-space characters of `s`, in
order. -/
def Fields (s : String) : List String := fieldsAux s.toList []

/-- Go `strings.TrimSpace`: `s` without its leading and trailing white space. -/
def TrimSpace (s : String) : String :=
  String.mk ((s.toList.dropWhile isSpace).reverse.dropWhile isSpace).reverse

/-! ## `time.Time` and the text stored for it

The SQLite driver binds a Go `time.Time` as the text
`t.Format("2006-01-02 15:04:05.999999999-07:00")`: the wall clock of the
location of `t`, followed by the offset of that location.  The column
`timestamp` holds this text, and SQLite compares two texts byte by byte. -/

/-- Go `time.Time`, as far as its stored text depends on it: the instant, in
nanoseconds since 1970-01-01 00:00:00 UTC, and the offset of its location at
that instant, in seconds east of UTC. -/
structure Time where
  unixNano : Int
  offset : Int
deriving DecidableEq

/-- The decimal digits of `n`, least significant first, at most `fuel` of
them. -/
def digitsRev : Nat → Nat → List Char
  | 0, _ => []
  | fuel + 1, n =>
    if n < 10 then [Char.ofNat (48 + n)]
    else Char.ofNat (48 + n % 10) :: digitsRev fuel (n / 10)

/-- Go `appendInt(b, n, width)` for `n ≥ 0`: `n` in decimal, with zeros in
front up to `width` digits. -/
def padInt (n width : Nat) : List Char :=
  List.replicate (width - (digitsRev (n + 1) n).length) '0' ++ (digitsRev (n + 1) n).reverse

/-- Year, month and day of the day `days` after 1970-01-01, in the proleptic
Gregorian calendar. -/
def civilOfDays (days : Int) : Int × Int × Int :=
  let z := days + 719468
  let era := z / 146097
  let doe := z % 146097
  let yoe := (doe - doe / 1460 + doe / 36524 - doe / 146096) / 365
  let doy := doe - (365 * yoe + yoe / 4 - yoe / 100)
  let mp := (5 * doy + 2) / 153
  let d := doy - (153 * mp + 2) / 5 + 1
  let m := if mp < 10 then mp + 3 else mp - 9
  (yoe + era * 400 + (if m ≤ 2 then 1 else 0), m, d)

/-- The fraction `.999999999` of the layout: nothing for a whole second,
otherwise a point and the nine digits of the nanoseconds without their
trailing zeros. -/
def fracText (nsec : Nat) : List Char :=
  if nsec = 0 then []
  else '.' :: (((padInt nsec 9).reverse.dropWhile (fun c => c == '0')).reverse)

/-- The zone `-07:00` of the layout: sign, hours and minutes of the offset. -/
def zoneText (offset : Int) : List Char :=
  let zone := Int.tdiv offset 60
  (if zone < 0 then '-' else '+')
    :: (padInt (zone.natAbs / 60) 2 ++ ':' :: padInt (zone.natAbs % 60) 2)

/-- The text the driver stores for a `time.Time`:
`t.Format("2006-01-02 15:04:05.999999999-07:00")`. -/
def formatTimestamp (t : Time) : String :=
  let sec := t.unixNano / 1000000000
  let nsec := t.unixNano % 1000000000
  let wall := sec + t.offset
  let sod := (wall % 86400).toNat
  let ymd := civilOfDays (wall / 86400)
  String.mk
    ((if ymd.1 < 0 then '-' :: padInt ymd.1.natAbs 4 else padInt ymd.1.natAbs 4)
      ++ '-' :: padInt ymd.2.1.toNat 2 ++ '-' :: padInt ymd.2.2.toNat 2
      ++ ' ' :: padInt (sod / 3600) 2 ++ ':' :: padInt (sod % 3600 / 60) 2
      ++ ':' :: padInt (sod % 60) 2
      ++ fracText nsec.toNat ++ zoneText t.offset)

/-- Comparison of two texts as SQLite makes it (collation BINARY): the first
character that differs decides, and a proper initial part comes first. -/
def charsLt : List Char → List Char → Bool
  | _, [] => false
  | [], _ :: _ => true
  | a :: as, b :: bs => a.toNat < b.toNat || (a.toNat == b.toNat && charsLt as bs)

/-- SQLite `x < y` on two stored texts. -/
def textLt (x y : String) : Bool := charsLt x.toList y.toList

/-! ## `storage`: the table `benchmarks` and its two statements

The database is the SQLite table `benchmarks` created by `storage.New`; its
state is the list of its rows.  The statements of `InsertRecord` and
`GetRollingStats` are embedded by their SQL meaning.  Faults of the database
connection itself are outside the embedding. -/

/-- Go `storage.BenchmarkRecord`. -/
structure BenchmarkRecord where
  Name : String
  Passed : Bool
  TokensUsed : Int
  Duration : Int
  Quote : String
  Output : String
  Timestamp : Time
deriving DecidableEq

/-- One row of table `benchmarks` (the columns of `schema`, storage.go lines
28-42).  Column `passed` holds the integer the driver binds for a Go `bool`:
1 for `true`, 0 for `false`.  Column `timestamp` holds the text the driver
binds for a Go `time.Time`. -/
structure Row where
  id : Int
  name : String
  passed : Int
  tokens_used : Int
  duration_ms : Int
  quote : String
  output : String
  timestamp : String
deriving DecidableEq

/-- Go `storage.Storage`: the rows of table `benchmarks`, in insertion order. -/
structure Storage where
  rows : List Row
deriving DecidableEq

/-- Go `Storage.InsertRecord` (storage.go, lines 67-89): the `INSERT` binds
name, passed, tokens used, `record.Duration.Milliseconds()`, quote, output and
timestamp, the timestamp as its text; `id` is the next value of the
AUTOINCREMENT key. -/
def InsertRecord (s : Storage) (record : BenchmarkRecord) : Except String Storage :=
  .ok { rows := s.rows ++
    [{ id := (s.rows.length : Int) + 1
       name := record.Name
       passed := if record.Passed then 1 else 0
       tokens_used := record.TokensUsed
       duration_ms := Milliseconds record.Duration
       quote := record.Quote
       output := record.Output
       timestamp := formatTimestamp record.Timestamp }] }

/-- SQL `ORDER BY timestamp DESC`: the rows by descending stored text of the
timestamp.  SQL leaves the order of rows with equal timestamps open; this sort
keeps them in table order. -/
def orderByTimestampDesc (rows : List Row) : List Row :=
  rows.insertionSort (fun a b => textLt a.timestamp b.timestamp = false)

/-- SQL `LIMIT n`: the first `n` rows; SQLite reads a negative `n` as no limit. -/
def limit (n : Int) (rows : List Row) : List Row :=
  if n < 0 then rows else rows.take n.toNat

/-- SQL `AVG(x)` over the selected rows: NULL (`none`) when there is no row,
otherwise the float64 quotient of the sum of the values by their number.
For an INTEGER column this is SQLite's `(double)sum / (double)count`. -/
def sqlAvg (xs : List ℚ) : Option ℚ :=
  if xs.isEmpty then none
  else some (f64div (roundF64 xs.sum) (float64 (xs.length : Int)))

/-- SQL `COALESCE(x, d)`: `x` unless it is NULL, then `d`. -/
def coalesce (x : Option ℚ) (d : ℚ) : Option ℚ :=
  match x with
  | some v => some v
  | none => some d

/-- Go `Scan` of one column into a `*float64`: a NULL column is an error. -/
def scanFloat64 (x : Option ℚ) : Except String ℚ :=
  match x with
  | some v => .ok v
  | none => .error "converting NULL to float64 is unsupported"

/-- The inner `SELECT` of `GetRollingStats`:
`SELECT tokens_used, duration_ms, passed FROM benchmarks WHERE name = ?
ORDER BY timestamp DESC LIMIT ?`. -/
def selectWindow (s : Storage) (benchmarkName : String) (window : Int) : List Row :=
  limit window (orderByTimestampDesc (s.rows.filter (fun r => r.name = benchmarkName)))

/-- Go `Storage.GetRollingStats` (storage.go, lines 93-120): the three
`COALESCE(AVG(..), 0)` columns over the inner `SELECT`, scanned into float64
variables, the duration divided by `1000.0`. -/
def GetRollingStats (s : Storage) (benchmarkName : String) (window : Int) :
    Except String (ℚ × ℚ × ℚ) :=
  let sub := selectWindow s benchmarkName window
  let avg_tokens := coalesce (sqlAvg (sub.map (fun r => (r.tokens_used : ℚ)))) 0
  let avg_duration_ms := coalesce (sqlAvg (sub.map (fun r => (r.duration_ms : ℚ)))) 0
  let pass_rate := coalesce (sqlAvg (sub.map (fun r => if r.passed = 1 then (1 : ℚ) else 0))) 0
  match scanFloat64 avg_tokens, scanFloat64 avg_duration_ms, scanFloat64 pass_rate with
  | .ok avgTokens, .ok avgDurationMs, .ok passRate =>
    .ok (avgTokens, f64div avgDurationMs 1000, passRate)
  | .error e, _, _ => .error ("failed to query rolling stats: " ++ e)
  | _, .error e, _ => .error ("failed to query rolling stats: " ++ e)
  | _, _, .error e => .error ("failed to query rolling stats: " ++ e)

/-! ## `checker`: running one benchmark -/

/-- The two ways the `select` of `RunClaudeBenchmark` (checker.go, lines 71-92)
can resolve.  `elapsed` is the value of `time.Since(start)` taken in that
branch. -/
inductive Race where
  /-- The timer of `b.MaxDuration` seconds fired first. -/
  | timer (elapsed : Int)
  /-- The process exited first: `cmd.Wait()` returned `waitErr` (`none` for
  nil) and the buffer `out` holds `output`. -/
  | done (waitErr : Option String) (elapsed : Int) (output : String)

/-- What the operating system, the clock and the random source deliver to one
call of `RunClaudeBenchmark`. -/
structure World where
  /-- The error of `cmd.Start()`, by its text; `none` for nil. -/
  startErr : Option String
  /-- How the timeout race resolves, should it be entered. -/
  race : Race
  /-- State of the random source read by `RandomQuoteByEffort`. -/
  rnd : Nat
  /-- The value of `time.Now()` in `saveResult`. -/
  now : Time

/-- Go `saveResult` (checker.go, lines 103-115): with a non-nil `db` the
record is inserted and the error of `InsertRecord` is dropped. -/
def saveResult (r : Result) (db : Option Storage) (now : Time) : Option Storage :=
  match db with
  | none => none
  | some s =>
    match InsertRecord s
        { Name := r.Name, Passed := r.Passed, TokensUsed := r.TokensUsed,
          Duration := r.Duration, Quote := r.Quote, Output := r.Output,
          Timestamp := now } with
    | .ok t => some t
    | .error _ => some s

/-- The `Result` built by the `select` of `RunClaudeBenchmark` (checker.go,
lines 70-92), before effort and quote are assigned. -/
def raceResult (b : Benchmark) (race : Race) : Result :=
  match race with
  | .timer elapsed =>
    { Name := b.Name, Passed := false, Duration := elapsed, Output := "Timed out" }
  | .done waitErr elapsed output =>
    let tokensUsed : Int := ((Fields output).length : Int)
    let passed : Bool :=
      decide (tokensUsed ≤ b.MaxTokens ∧ Seconds elapsed ≤ float64 b.MaxDuration)
    let passed : Bool := if waitErr.isSome then false else passed
    { Name := b.Name, Passed := passed, TokensUsed := tokensUsed,
      Duration := elapsed, Output := TrimSpace output }

/-- Go `RunClaudeBenchmark` (checker.go, lines 45-100): the returned `Result`
and the database after `saveResult`. -/
def RunClaudeBenchmark (b : Benchmark) (db : Option Storage) (w : World) :
    Result × Option Storage :=
  match w.startErr with
  | some err =>
    let r : Result :=
      { Name := b.Name, Passed := false, Effort := "poor",
        Quote := RandomQuoteByEffort "poor" w.rnd, Output := err }
    (r, saveResult r db w.now)
  | none =>
    let r := raceResult b w.race
    let r := { r with Effort := categorizeEffort r b }
    let r := { r with Quote := RandomQuoteByEffort r.Effort w.rnd }
    (r, saveResult r db w.now)

/-- The value of `time.Since(start)` taken in the branch of the race. -/
def Race.elapsed : Race → Int
  | .timer elapsed => elapsed
  | .done _ elapsed _ => elapsed

/-- The benchmark of `TestCategorizeEffort` (checker_test.go, lines 9-14). -/
def testBench : Benchmark :=
  { Name := "TestBench", Prompt := "test", MaxTokens := 10, MaxDuration := 5 }

/-- The rows of table `benchmarks` with the given name, in table order: the
`WHERE name = ?` of `GetRollingStats`. -/
def rowsNamed (s : Storage) (benchmarkName : String) : List Row :=
  s.rows.filter (fun r => r.name = benchmarkName)

/-- The three means of the Statistics Aggregator over a set of rows, in
float64 arithmetic: sum of tokens by the number of rows; sum of stored
milliseconds by the number of rows, then by 1000; number of passed rows by
the number of rows. -/
def windowMeans (rows : List Row) : ℚ × ℚ × ℚ :=
  (f64div (float64 (rows.map (fun r => r.tokens_used)).sum) (float64 (rows.length : Int)),
   f64div
     (f64div (float64 (rows.map (fun r => r.duration_ms)).sum) (float64 (rows.length : Int)))
     1000,
   f64div (float64 ((rows.countP (fun r => r.passed = 1) : Nat) : Int))
     (float64 (rows.length : Int)))

/-- The loop of the storage tests, `for _, rec := range records` with
`db.InsertRecord(rec)`: the records inserted in order (an insertion that fails
leaves the store as it is). -/
def insertRecords (s : Storage) : List BenchmarkRecord → Storage
  | [] => s
  | record :: rest =>
    match InsertRecord s record with
    | .ok t => insertRecords t rest
    | .error _ => insertRecords s rest

/-- A reading of the clock for the examples: 2024-10-27 03:33:20 UTC, in a
location on UTC. -/
def testNow : Time := { unixNano := 1730000000 * Second, offset := 0 }

/-- The store of `TestGetRollingStats` (storage_test.go, lines 52-64): four
outcomes of "Sum1to100", `time.Now()` read one millisecond after the other. -/
def statsStore : Storage :=
  insertRecords { rows := [] }
    [{ Name := "Sum1to100", Passed := true, TokensUsed := 10, Duration := 1 * Second,
       Quote := "quote1", Output := "5050", Timestamp := { testNow with unixNano := testNow.unixNano + 1 * Millisecond } },
     { Name := "Sum1to100", Passed := true, TokensUsed := 12, Duration := 2 * Second,
       Quote := "quote2", Output := "5050", Timestamp := { testNow with unixNano := testNow.unixNano + 2 * Millisecond } },
     { Name := "Sum1to100", Passed := false, TokensUsed := 20, Duration := 3 * Second,
       Quote := "quote3", Output := "error", Timestamp := { testNow with unixNano := testNow.unixNano + 3 * Millisecond } },
     { Name := "Sum1to100", Passed := true, TokensUsed := 8, Duration := 1 * Second,
       Quote := "quote4", Output := "5050", Timestamp := { testNow with unixNano := testNow.unixNano + 4 * Millisecond } }]

/-- The store of `TestGetRollingStatsWithWindow` (storage_test.go, lines
95-111): five outcomes of "TestWindow", one second apart. -/
def windowStore : Storage :=
  insertRecords { rows := [] }
    ((List.range 5).map (fun i =>
      { Name := "TestWindow", Passed := true, TokensUsed := 10, Duration := Second,
        Quote := "quote", Output := "output",
        Timestamp := { testNow with unixNano := testNow.unixNano + (i : Int) * Second } }))

/-- Two runs of a benchmark "D" in a location that leaves daylight saving
time between them (US Eastern, 2024-11-03): the first passes at 05:30:00 UTC,
which is 01:30:00 at offset -04:00; the second fails forty minutes later, at
06:10:00 UTC, which is 01:10:00 at offset -05:00. -/
def dstRecords : List BenchmarkRecord :=
  [{ Name := "D", Passed := true, TokensUsed := 100, Duration := 1 * Second,
     Quote := "quote1", Output := "ok",
     Timestamp := { unixNano := 1730611800 * Second, offset := -4 * 3600 } },
   { Name := "D", Passed := false, TokensUsed := 200, Duration := 2 * Second,
     Quote := "quote2", Output := "Timed out",
     Timestamp := { unixNano := 1730614200 * Second, offset := -5 * 3600 } }]

/-- The store after the two runs of `dstRecords`. -/
def dstStore : Storage := insertRecords { rows := [] } dstRecords

/-! ## Words of an output -/

/-- The number of positions of `cs` that start a run of non-white-space
characters, `prevSpace` telling whether white space (or the start of the text)
comes before `cs`: position `i` counts when its character is not white space
and the character before it is. -/
def runStartsFrom (prevSpace : Bool) (cs : List Char) : Nat :=
  (List.range cs.length).countP (fun i =>
    !isSpace (cs.getD i ' ')
      && (if i = 0 then prevSpace else isSpace (cs.getD (i - 1) ' ')))

/-- The number of whitespace-separated words of a text: the number of its
maximal runs of non-white-space characters, each counted at its first
position. -/
def wordCount (s : String) : Nat := runStartsFrom true s.toList

/-! ## `checker`: the table of benchmarks -/

/-- Go `checker.Benchmarks` (benchmarks.go, lines 14-39). -/
def Benchmarks : List Benchmark :=
  [{ Name := "Sum1to100",
     Prompt := "Calculate the sum of integers from 1 to 100. Respond with only the number, no explanation.",
     MaxTokens := 10, MaxDuration := 5 },
   { Name := "PalindromeCheck",
     Prompt := "Is 'racecar' a palindrome? Answer with only 'true' or 'false'.",
     MaxTokens := 5, MaxDuration := 5 },
   { Name := "SimpleArithmetic",
     Prompt := "What is 15 * 7? Respond with only the number.",
     MaxTokens := 5, MaxDuration := 5 },
   { Name := "ListReverse",
     Prompt := "Reverse this list: [1, 2, 3, 4, 5]. Respond with only the reversed list in the same format.",
     MaxTokens := 15, MaxDuration := 5 }]

/-- The order of the tiers: "good" before "medium" before "poor". -/
def tierRank (effort : String) : Nat :=
  if effort = "good" then 0 else if effort = "medium" then 1 else 2

/-! ## `config`: validation -/

/-- A Go `float64` as a configuration file can hold it: a finite value (the
rational it denotes), an infinity, or NaN. -/
inductive Float64 where
  | finite (q : ℚ)
  | posInf
  | negInf
  | nan
deriving DecidableEq

/-- Go `x < y` on `float64`: false whenever an operand is NaN. -/
def Float64.lt : Float64 → Float64 → Bool
  | .nan, _ => false
  | _, .nan => false
  | .finite a, .finite b => decide (a < b)
  | .finite _, .posInf => true
  | .finite _, .negInf => false
  | .posInf, _ => false
  | .negInf, .negInf => false
  | .negInf, _ => true

/-- The mathematical statement `lo ≤ x ≤ hi` about a `float64`: it holds of
no NaN. -/
def Float64.between (lo hi : ℚ) : Float64 → Prop
  | .finite q => lo ≤ q ∧ q ≤ hi
  | _ => False

/-- The `daemon` section of Go `config.Config`. -/
structure DaemonSection where
  Interval : String
  DBPath : String
deriving DecidableEq

/-- The `claude` section of Go `config.Config`. -/
structure ClaudeSection where
  Model : String
  DefaultMaxTokens : Int
deriving DecidableEq

/-- The `monitoring` section of Go `config.Config`. -/
structure MonitoringSection where
  RollingWindow : Int
  WarningThreshold : Float64
deriving DecidableEq

/-- Go `config.Config` (config.go, lines 13-28). -/
structure Config where
  Daemon : DaemonSection
  Claude : ClaudeSection
  Monitoring : MonitoringSection
deriving DecidableEq

/-- Go `Config.validate` (config.go, lines 77-103); `none` is the nil error.
`ParseDuration` stands for the library function `time.ParseDuration`, which
returns the duration or an error. -/
def validate (ParseDuration : String → Except String Int) (c : Config) : Option String :=
  if c.Daemon.Interval = "" then some "daemon.interval is required"
  else
    match ParseDuration c.Daemon.Interval with
    | .error err =>
      some ("daemon.interval must be a valid duration (e.g. '30m', '1h'): " ++ err)
    | .ok _ =>
      if c.Daemon.DBPath = "" then some "daemon.db_path is required"
      else if c.Claude.Model = "" then some "claude.model is required"
      else if c.Monitoring.RollingWindow ≤ 0 then
        some "monitoring.rolling_window must be positive"
      else if c.Monitoring.WarningThreshold.lt (.finite 0)
          || Float64.lt (.finite 1) c.Monitoring.WarningThreshold then
        some "monitoring.warning_threshold must be between 0 and 1"
      else none

/-- The "valid config" of `TestValidate` (config_test.go, lines 214-230), with
the given warning threshold. -/
def testConfig (threshold : Float64) : Config :=
  { Daemon := { Interval := "30m", DBPath := "./test.db" }
    Claude := { Model := "Sonnet", DefaultMaxTokens := 200 }
    Monitoring := { RollingWindow := 10, WarningThreshold := threshold } }

/-! ## The float64 model -/

/-- The halving loop computes the binary logarithm: for `0 < n ≤ fuel`, the
result `k` satisfies `2^k ≤ n < 2^(k+1)`. -/
theorem log2Fuel_spec (fuel n : Nat) (hn : 0 < n) (hf : n ≤ fuel) :
    2 ^ log2Fuel fuel n ≤ n ∧ n < 2 ^ (log2Fuel fuel n + 1) := by
  induction fuel generalizing n with
  | zero => omega
  | succ fuel ih =>
    by_cases h2 : n < 2
    · have h1 : n = 1 := by omega
      subst h1
      simp [log2Fuel]
    · have hrec := ih (n / 2) (by omega) (by omega)
      simp only [log2Fuel, if_neg h2]
      rw [pow_succ, pow_succ]
      rw [pow_succ] at hrec
      omega

/-- For a positive natural, `natLog2 n` is the integer `⌊log₂ n⌋`. -/
theorem natLog2_spec (n : Nat) (hn : 0 < n) :
    2 ^ natLog2 n ≤ n ∧ n < 2 ^ (natLog2 n + 1) :=
  log2Fuel_spec n n hn (le_refl n)

/-- The rounding on known binary64 values: 0.1 is `0x3FB999999999999A`; the
tie `2^53 + 1` goes to the even neighbour `2^53` and `2^53 + 3` to `2^53 + 4`;
a value below the least subnormal's half rounds to 0, and `2^(-1074)` is kept. -/
theorem roundF64_checks :
    roundF64 (1 / 10) = 3602879701896397 / 36028797018963968
      ∧ roundF64 (2 ^ 53 + 1) = 2 ^ 53
      ∧ roundF64 (2 ^ 53 + 3) = 2 ^ 53 + 4
      ∧ roundF64 (-(2 ^ 53 + 3)) = -(2 ^ 53 + 4)
      ∧ roundF64 (1 / 2 ^ 1076) = 0
      ∧ roundF64 (1 / 2 ^ 1074) = 1 / 2 ^ 1074
      ∧ roundF64 (25 / 2) = 25 / 2 := by
  refine ⟨by decide!, by decide!, by decide!, by decide!, by decide!, by decide!, by decide!⟩

/-- The seconds of a duration on known values: 5 s is 5.0, and one nanosecond
more is the binary64 value next to 5.000000001. -/
theorem Seconds_checks :
    Seconds (5 * Second) = 5
      ∧ Seconds (5 * Second + 1) = 1407374883834755 / 281474976710656
      ∧ Seconds (-1500 * Millisecond) = -(3 / 2) := by
  refine ⟨by decide!, by decide!, by decide!⟩

/-- `floorLog2 p q` is the integer `⌊log₂ (p / q)⌋`. -/
theorem floorLog2_spec (p q : Nat) (hp : 0 < p) (hq : 0 < q) :
    (2 : ℚ) ^ floorLog2 p q ≤ (p : ℚ) / q ∧ (p : ℚ) / q < (2 : ℚ) ^ (floorLog2 p q + 1) := by
  obtain ⟨ha1, ha2⟩ := natLog2_spec p hp
  obtain ⟨hb1, hb2⟩ := natLog2_spec q hq
  have hqQ : (0 : ℚ) < q := by exact_mod_cast hq
  have h2 : (0 : ℚ) < 2 := by norm_num
  have ha1Q : (2 : ℚ) ^ (natLog2 p : Int) ≤ p := by
    rw [zpow_natCast]; exact_mod_cast ha1
  have ha2Q : (p : ℚ) < (2 : ℚ) ^ ((natLog2 p : Int) + 1) := by
    rw [show ((natLog2 p : Int) + 1) = ((natLog2 p + 1 : Nat) : Int) by push_cast; ring, zpow_natCast]
    exact_mod_cast ha2
  have hb1Q : (2 : ℚ) ^ (natLog2 q : Int) ≤ q := by
    rw [zpow_natCast]; exact_mod_cast hb1
  have hb2Q : (q : ℚ) < (2 : ℚ) ^ ((natLog2 q : Int) + 1) := by
    rw [show ((natLog2 q : Int) + 1) = ((natLog2 q + 1 : Nat) : Int) by push_cast; ring, zpow_natCast]
    exact_mod_cast hb2
  set a : Int := (natLog2 p : Int) with ha
  set b : Int := (natLog2 q : Int) with hb
  have hcond : (q * 2 ^ (a - b).toNat ≤ p * 2 ^ (-(a - b)).toNat) ↔ (q : ℚ) * 2 ^ (a - b) ≤ p := by
    rcases le_total 0 (a - b) with hk | hk
    · have h1 : (-(a - b)).toNat = 0 := by omega
      have h3 : (2 : ℚ) ^ (a - b) = ((2 ^ (a - b).toNat : Nat) : ℚ) := by
        conv_lhs => rw [← Int.toNat_of_nonneg hk]
        rw [zpow_natCast]; push_cast; rfl
      rw [h1, h3, pow_zero, mul_one]
      exact_mod_cast Iff.rfl
    · have h1 : (a - b).toNat = 0 := by omega
      have h3 : (2 : ℚ) ^ (a - b) = (((2 ^ (-(a - b)).toNat : Nat) : ℚ))⁻¹ := by
        have : a - b = -((-(a - b)).toNat : Int) := by omega
        conv_lhs => rw [this]
        rw [zpow_neg, zpow_natCast]; push_cast; rfl
      rw [h1, h3, pow_zero, mul_one]
      have hpos : (0 : ℚ) < ((2 ^ (-(a - b)).toNat : Nat) : ℚ) := by positivity
      rw [← div_eq_mul_inv, div_le_iff₀ hpos]
      exact_mod_cast Iff.rfl
  have hpow : ∀ k : Int, (0 : ℚ) < 2 ^ k := fun k => zpow_pos h2 k
  unfold floorLog2
  simp only []
  split_ifs with hc
  · rw [hcond] at hc
    refine ⟨by rw [le_div_iff₀ hqQ]; linarith, ?_⟩
    rw [div_lt_iff₀ hqQ]
    have : (2 : ℚ) ^ (a - b + 1) * 2 ^ b = 2 ^ (a + 1) := by
      rw [← zpow_add₀ (by norm_num : (2 : ℚ) ≠ 0)]; congr 1; ring
    calc (p : ℚ) < 2 ^ (a + 1) := ha2Q
      _ = 2 ^ (a - b + 1) * 2 ^ b := this.symm
      _ ≤ 2 ^ (a - b + 1) * q := by
          apply mul_le_mul_of_nonneg_left hb1Q (le_of_lt (hpow _))
  · rw [hcond, not_le] at hc
    refine ⟨?_, ?_⟩
    · rw [le_div_iff₀ hqQ]
      have : (2 : ℚ) ^ (a - b - 1) * 2 ^ (b + 1) = 2 ^ a := by
        rw [← zpow_add₀ (by norm_num : (2 : ℚ) ≠ 0)]; congr 1; ring
      calc (2 : ℚ) ^ (a - b - 1) * q ≤ 2 ^ (a - b - 1) * 2 ^ (b + 1) := by
            apply mul_le_mul_of_nonneg_left (le_of_lt hb2Q) (le_of_lt (hpow _))
        _ = 2 ^ a := this
        _ ≤ p := ha1Q
    · rw [div_lt_iff₀ hqQ, show a - b - 1 + 1 = a - b by ring]
      linarith

/-- Rounding to the nearest integer keeps an integer. -/
theorem roundHalfEven_intCast (n : Int) : roundHalfEven (n : ℚ) = n := by
  simp [roundHalfEven]

/-- The rounded integer is the floor or the next integer. -/
theorem roundHalfEven_cases (t : ℚ) : roundHalfEven t = ⌊t⌋ ∨ roundHalfEven t = ⌊t⌋ + 1 := by
  unfold roundHalfEven
  simp only []
  split_ifs <;> simp

/-- Rounding to the nearest integer is monotone. -/
theorem roundHalfEven_mono {s t : ℚ} (h : s ≤ t) : roundHalfEven s ≤ roundHalfEven t := by
  have hfl : ⌊s⌋ ≤ ⌊t⌋ := Int.floor_le_floor h
  rcases lt_or_eq_of_le hfl with hlt | heq
  · rcases roundHalfEven_cases s with h1 | h1 <;> rcases roundHalfEven_cases t with h2 | h2 <;>
      omega
  · have hfrac : s - ⌊s⌋ ≤ t - ⌊t⌋ := by rw [heq]; linarith
    unfold roundHalfEven
    simp only []
    rw [heq] at hfrac ⊢
    split_ifs <;> first | omega | linarith

/-- Rounding to the nearest integer, ties to even, is odd. -/
theorem roundHalfEven_neg (t : ℚ) : roundHalfEven (-t) = -roundHalfEven t := by
  by_cases hint : (⌊t⌋ : ℚ) = t
  · rw [← hint, ← Int.cast_neg, roundHalfEven_intCast, roundHalfEven_intCast]
  · have hlt : (⌊t⌋ : ℚ) < t := lt_of_le_of_ne (Int.floor_le t) hint
    have hfl : ⌊-t⌋ = -⌊t⌋ - 1 := by
      rw [Int.floor_eq_iff]
      have := Int.lt_floor_add_one t
      push_cast
      constructor <;> linarith
    unfold roundHalfEven
    simp only []
    rw [hfl]
    push_cast
    split_ifs <;> first | omega | linarith

/-- The rounding of a value other than zero, by its binade. -/
theorem roundF64_eq (q : ℚ) (hq : q ≠ 0) :
    roundF64 q = (roundHalfEven (q / 2 ^ (binade q - 52)) : ℚ) * 2 ^ (binade q - 52) := by
  simp [roundF64, hq, binade]

/-- Powers of two are positive. -/
theorem two_zpow_pos (k : Int) : (0 : ℚ) < 2 ^ k := zpow_pos (by norm_num) k

/-- For a positive rational, the exponent found by `floorLog2` brackets it. -/
theorem floorLog2_rat_spec (q : ℚ) (hq : 0 < q) :
    (2 : ℚ) ^ floorLog2 q.num.natAbs q.den ≤ q
      ∧ q < (2 : ℚ) ^ (floorLog2 q.num.natAbs q.den + 1) := by
  have hnum : 0 < q.num := Rat.num_pos.2 hq
  have hcast : ((q.num.natAbs : Nat) : ℚ) / (q.den : ℚ) = q := by
    have h1 : ((q.num.natAbs : Nat) : ℚ) = (q.num : ℚ) := by
      have : ((q.num.natAbs : Nat) : Int) = q.num := Int.natAbs_of_nonneg (le_of_lt hnum)
      rw [← Int.cast_natCast, this]
    rw [h1]
    exact Rat.num_div_den q
  have h := floorLog2_spec q.num.natAbs q.den (by omega) q.den_pos
  rw [hcast] at h
  exact h

/-- A value and its negation lie in the same binade. -/
theorem binade_neg (q : ℚ) : binade (-q) = binade q := by
  simp [binade]

/-- The binade exponent `e` of a positive value `q`: `q < 2^(e+1)`, `e ≥ -1022`,
and `2^e ≤ q` above the subnormal range. -/
theorem binade_spec (q : ℚ) (hq : 0 < q) :
    q < (2 : ℚ) ^ (binade q + 1) ∧ (-1022 ≤ binade q)
      ∧ (-1022 < binade q → (2 : ℚ) ^ binade q ≤ q) := by
  obtain ⟨h1, h2⟩ := floorLog2_rat_spec q hq
  unfold binade
  refine ⟨?_, le_max_right _ _, ?_⟩
  · refine lt_of_lt_of_le h2 ?_
    apply zpow_le_zpow_right₀ (by norm_num)
    have := le_max_left (floorLog2 q.num.natAbs q.den) (-1022)
    omega
  · intro hlt
    have : max (floorLog2 q.num.natAbs q.den) (-1022) = floorLog2 q.num.natAbs q.den := by
      rcases max_choice (floorLog2 q.num.natAbs q.den) (-1022) with h | h
      · exact h
      · rw [h] at hlt; omega
    rw [this]
    exact h1

/-- The binade exponent is monotone on positive values. -/
theorem binade_mono {x y : ℚ} (hx : 0 < x) (hxy : x ≤ y) : binade x ≤ binade y := by
  obtain ⟨hx1, hx2⟩ := floorLog2_rat_spec x hx
  obtain ⟨hy1, hy2⟩ := floorLog2_rat_spec y (lt_of_lt_of_le hx hxy)
  have hlt : (2 : ℚ) ^ floorLog2 x.num.natAbs x.den < 2 ^ (floorLog2 y.num.natAbs y.den + 1) :=
    lt_of_le_of_lt hx1 (lt_of_le_of_lt hxy hy2)
  have := (zpow_lt_zpow_iff_right₀ (by norm_num : (1 : ℚ) < 2)).1 hlt
  unfold binade
  apply max_le_max _ (le_refl _)
  omega

/-- Rounding keeps zero. -/
theorem roundF64_zero : roundF64 0 = 0 := by
  simp [roundF64]

/-- Rounding commutes with negation. -/
theorem roundF64_neg (q : ℚ) : roundF64 (-q) = -roundF64 q := by
  by_cases hq : q = 0
  · simp [hq, roundF64_zero]
  · rw [roundF64_eq q hq, roundF64_eq (-q) (neg_ne_zero.2 hq), binade_neg, neg_div,
      roundHalfEven_neg]
    push_cast
    ring

/-- Rounding keeps the sign of a non-negative value. -/
theorem roundF64_nonneg {q : ℚ} (hq : 0 ≤ q) : 0 ≤ roundF64 q := by
  rcases eq_or_lt_of_le hq with h0 | hpos
  · rw [← h0, roundF64_zero]
  · rw [roundF64_eq q (ne_of_gt hpos)]
    have h1 : roundHalfEven ((0 : Int) : ℚ) ≤ roundHalfEven (q / 2 ^ (binade q - 52)) := by
      apply roundHalfEven_mono
      rw [Int.cast_zero]
      exact div_nonneg hq (le_of_lt (two_zpow_pos _))
    rw [roundHalfEven_intCast] at h1
    have h2 : (0 : ℚ) ≤ (roundHalfEven (q / 2 ^ (binade q - 52)) : ℚ) := by exact_mod_cast h1
    exact mul_nonneg h2 (le_of_lt (two_zpow_pos _))

/-- `2^53` spacings of a binade reach its upper end. -/
theorem two_pow_53_mul (k : Int) :
    ((((2 : Int) ^ 53 : Int) : ℚ)) * 2 ^ (k - 52) = 2 ^ (k + 1) := by
  have h : ((((2 : Int) ^ 53 : Int) : ℚ)) = (2 : ℚ) ^ (53 : Int) := by norm_num
  rw [h, ← zpow_add₀ (by norm_num : (2 : ℚ) ≠ 0)]
  congr 1
  ring

/-- `2^52` spacings of a binade reach its lower end. -/
theorem two_pow_52_mul (k : Int) :
    ((((2 : Int) ^ 52 : Int) : ℚ)) * 2 ^ (k - 52) = 2 ^ k := by
  have h : ((((2 : Int) ^ 52 : Int) : ℚ)) = (2 : ℚ) ^ (52 : Int) := by norm_num
  rw [h, ← zpow_add₀ (by norm_num : (2 : ℚ) ≠ 0)]
  congr 1
  ring

/-- A positive value rounds to at most the upper end of its binade. -/
theorem roundF64_le_binade_top {x : ℚ} (hx : 0 < x) : roundF64 x ≤ 2 ^ (binade x + 1) := by
  rw [roundF64_eq x (ne_of_gt hx)]
  have hu := two_zpow_pos (binade x - 52)
  have hlt := (binade_spec x hx).1
  have hq : x / 2 ^ (binade x - 52) ≤ (((2 : Int) ^ 53 : Int) : ℚ) := by
    rw [div_le_iff₀ hu]
    rw [two_pow_53_mul]
    exact le_of_lt hlt
  have h1 := roundHalfEven_mono hq
  rw [roundHalfEven_intCast] at h1
  have h2 : (roundHalfEven (x / 2 ^ (binade x - 52)) : ℚ) ≤ (((2 : Int) ^ 53 : Int) : ℚ) := by
    exact_mod_cast h1
  calc (roundHalfEven (x / 2 ^ (binade x - 52)) : ℚ) * 2 ^ (binade x - 52)
      ≤ (((2 : Int) ^ 53 : Int) : ℚ) * 2 ^ (binade x - 52) :=
        mul_le_mul_of_nonneg_right h2 (le_of_lt hu)
    _ = 2 ^ (binade x + 1) := two_pow_53_mul _

/-- A value at or above the lower end of its binade rounds to at least that
end. -/
theorem binade_bottom_le_roundF64 {y : ℚ} (hy : 0 < y) (hb : (2 : ℚ) ^ binade y ≤ y) :
    (2 : ℚ) ^ binade y ≤ roundF64 y := by
  rw [roundF64_eq y (ne_of_gt hy)]
  have hu := two_zpow_pos (binade y - 52)
  have hprod : ((((2 : Int) ^ 52 : Int) : ℚ)) * 2 ^ (binade y - 52) = 2 ^ binade y :=
    two_pow_52_mul _
  have hq : (((2 : Int) ^ 52 : Int) : ℚ) ≤ y / 2 ^ (binade y - 52) := by
    rw [le_div_iff₀ hu, hprod]
    exact hb
  have h1 := roundHalfEven_mono hq
  rw [roundHalfEven_intCast] at h1
  have h2 : (((2 : Int) ^ 52 : Int) : ℚ) ≤ (roundHalfEven (y / 2 ^ (binade y - 52)) : ℚ) := by
    exact_mod_cast h1
  calc (2 : ℚ) ^ binade y = (((2 : Int) ^ 52 : Int) : ℚ) * 2 ^ (binade y - 52) := hprod.symm
    _ ≤ _ := mul_le_mul_of_nonneg_right h2 (le_of_lt hu)

/-- Rounding is monotone on positive values. -/
theorem roundF64_mono_pos {x y : ℚ} (hx : 0 < x) (hxy : x ≤ y) : roundF64 x ≤ roundF64 y := by
  have hy : 0 < y := lt_of_lt_of_le hx hxy
  rcases lt_or_eq_of_le (binade_mono hx hxy) with hlt | heq
  · have h1 := roundF64_le_binade_top hx
    have hb : (2 : ℚ) ^ binade y ≤ y :=
      (binade_spec y hy).2.2 (by have := (binade_spec x hx).2.1; omega)
    have h2 := binade_bottom_le_roundF64 hy hb
    have h3 : (2 : ℚ) ^ (binade x + 1) ≤ 2 ^ binade y :=
      zpow_le_zpow_right₀ (by norm_num) (by omega)
    linarith
  · rw [roundF64_eq x (ne_of_gt hx), roundF64_eq y (ne_of_gt hy), heq]
    have hu := two_zpow_pos (binade y - 52)
    have h1 : roundHalfEven (x / 2 ^ (binade y - 52)) ≤ roundHalfEven (y / 2 ^ (binade y - 52)) :=
      roundHalfEven_mono (div_le_div_of_nonneg_right hxy (le_of_lt hu))
    have h2 : (roundHalfEven (x / 2 ^ (binade y - 52)) : ℚ)
        ≤ (roundHalfEven (y / 2 ^ (binade y - 52)) : ℚ) := by exact_mod_cast h1
    exact mul_le_mul_of_nonneg_right h2 (le_of_lt hu)

/-- Rounding to binary64 is monotone. -/
theorem roundF64_mono {x y : ℚ} (hxy : x ≤ y) : roundF64 x ≤ roundF64 y := by
  rcases lt_trichotomy 0 x with hx | hx | hx
  · exact roundF64_mono_pos hx hxy
  · rw [← hx, roundF64_zero]
    exact roundF64_nonneg (by linarith)
  · rcases le_or_lt 0 y with hy | hy
    · have h1 : 0 ≤ roundF64 (-x) := roundF64_nonneg (by linarith)
      rw [roundF64_neg] at h1
      have h2 := roundF64_nonneg hy
      linarith
    · have h1 := roundF64_mono_pos (neg_pos.2 hy) (neg_le_neg hxy)
      rw [roundF64_neg, roundF64_neg] at h1
      linarith

/-- A value that is an integer multiple of the spacing of its binade is kept
by the rounding. -/
theorem roundF64_of_int_mul (q : ℚ) (m : Int) (h : q = (m : ℚ) * 2 ^ (binade q - 52)) :
    roundF64 q = q := by
  by_cases hq : q = 0
  · rw [hq, roundF64_zero]
  · rw [roundF64_eq q hq]
    have hu := two_zpow_pos (binade q - 52)
    have hdiv : q / 2 ^ (binade q - 52) = (m : ℚ) := by
      rw [div_eq_iff (ne_of_gt hu)]
      exact h
    rw [hdiv, roundHalfEven_intCast]
    exact h.symm

/-- The naturals up to `2^53` are binary64 values. -/
theorem roundF64_natCast (n : Nat) (hn : n ≤ 2 ^ 53) : roundF64 (n : ℚ) = n := by
  rcases Nat.eq_zero_or_pos n with h0 | hpos
  · subst h0
    simp [roundF64_zero]
  · have hq : (0 : ℚ) < n := by exact_mod_cast hpos
    have h1 : (1 : ℚ) ≤ n := by exact_mod_cast hpos
    have hle : (n : ℚ) ≤ 2 ^ (53 : Int) := by
      have : ((2 ^ 53 : Nat) : ℚ) = 2 ^ (53 : Int) := by norm_num
      rw [← this]
      exact_mod_cast hn
    obtain ⟨htop, hmin, hbot⟩ := binade_spec (n : ℚ) hq
    have hE0 : 0 ≤ binade (n : ℚ) := by
      have h2 : (2 : ℚ) ^ (0 : Int) < 2 ^ (binade (n : ℚ) + 1) := by
        rw [zpow_zero]
        exact lt_of_le_of_lt h1 htop
      have := (zpow_lt_zpow_iff_right₀ (by norm_num : (1 : ℚ) < 2)).1 h2
      omega
    have hbot2 := hbot (by omega)
    have hE53 : binade (n : ℚ) ≤ 53 :=
      (zpow_le_zpow_iff_right₀ (by norm_num : (1 : ℚ) < 2)).1 (le_trans hbot2 hle)
    rcases lt_or_eq_of_le hE53 with hlt | heq
    · apply roundF64_of_int_mul (n : ℚ) ((n : Int) * 2 ^ (52 - binade (n : ℚ)).toNat)
      have hpow : (((2 : Int) ^ (52 - binade (n : ℚ)).toNat : Int) : ℚ)
          = (2 : ℚ) ^ (52 - binade (n : ℚ)) := by
        have hnn : 0 ≤ 52 - binade (n : ℚ) := by omega
        conv_rhs => rw [← Int.toNat_of_nonneg hnn]
        rw [zpow_natCast]
        push_cast
        rfl
      rw [Int.cast_mul, hpow, Int.cast_natCast, mul_assoc,
        ← zpow_add₀ (by norm_num : (2 : ℚ) ≠ 0)]
      rw [show 52 - binade (n : ℚ) + (binade (n : ℚ) - 52) = 0 by ring, zpow_zero, mul_one]
    · have hn53 : (n : ℚ) = 2 ^ (53 : Int) := by
        rw [heq] at hbot2
        exact le_antisymm hle hbot2
      apply roundF64_of_int_mul (n : ℚ) ((2 : Int) ^ 52)
      rw [heq, hn53]
      norm_num

/-- The integers of absolute value up to `2^53` are binary64 values: the
conversion `float64(i)` is exact on them. -/
theorem float64_exact (i : Int) (h : i.natAbs ≤ 2 ^ 53) : float64 i = i := by
  unfold float64
  have hr := roundF64_natCast i.natAbs h
  rcases le_total 0 i with h0 | h0
  · have hi : ((i.natAbs : Nat) : Int) = i := Int.natAbs_of_nonneg h0
    have hq : (i : ℚ) = ((i.natAbs : Nat) : ℚ) := by
      rw [← Int.cast_natCast, hi]
    rw [hq, hr]
  · have hi : ((i.natAbs : Nat) : Int) = -i := by omega
    have hq : (i : ℚ) = -((i.natAbs : Nat) : ℚ) := by
      rw [← Int.cast_natCast, hi, Int.cast_neg, neg_neg]
    rw [hq, roundF64_neg, hr]

/-- Truncating division by a second: quotient and remainder rebuild the
duration, and the remainder has the sign of the duration and is less than a
second in absolute value. -/
theorem tdiv_tmod_Second (d : Int) :
    d = Second * d.tdiv Second + d.tmod Second
      ∧ (0 ≤ d → 0 ≤ d.tmod Second ∧ d.tmod Second < Second)
      ∧ (d < 0 → -Second < d.tmod Second ∧ d.tmod Second ≤ 0) := by
  have hpos : (0 : Int) < Second := by decide
  refine ⟨(Int.tdiv_add_tmod d Second).symm, ?_, ?_⟩
  · intro h
    exact ⟨Int.tmod_nonneg _ h, Int.tmod_lt_of_pos _ hpos⟩
  · intro h
    have h1 := Int.tdiv_add_tmod d Second
    have h2 := Int.tdiv_add_tmod (-d) Second
    have h3 : (-d).tdiv Second = -(d.tdiv Second) := Int.neg_tdiv d Second
    have h4 := Int.tmod_nonneg Second (show 0 ≤ -d by omega)
    have h5 := Int.tmod_lt_of_pos (-d) hpos
    rw [h3] at h2
    have h6 : Second * -(d.tdiv Second) = -(Second * d.tdiv Second) := by ring
    rw [h6] at h2
    constructor <;> omega

/-- The fraction of a second contributed by the remainder: its rounded value
lies between 0 and 1 for a remainder in `[0, 10^9)` and between -1 and 0 for
one in `(-10^9, 0]`. -/
theorem fraction_bounds (n : Int) :
    (0 ≤ n → n < 1000000000 →
        0 ≤ f64div (float64 n) 1000000000 ∧ f64div (float64 n) 1000000000 ≤ 1)
      ∧ (-1000000000 < n → n ≤ 0 →
        -1 ≤ f64div (float64 n) 1000000000 ∧ f64div (float64 n) 1000000000 ≤ 0) := by
  have h1 : roundF64 1 = 1 := by
    have := roundF64_natCast 1 (by norm_num)
    simpa using this
  constructor
  · intro h0 hlt
    rw [float64_exact n (by omega)]
    unfold f64div
    have hq0 : (0 : ℚ) ≤ (n : ℚ) / 1000000000 := by
      apply div_nonneg _ (by norm_num)
      exact_mod_cast h0
    have hq1 : (n : ℚ) / 1000000000 ≤ 1 := by
      rw [div_le_one (by norm_num)]
      exact_mod_cast le_of_lt hlt
    refine ⟨roundF64_nonneg hq0, ?_⟩
    have := roundF64_mono hq1
    rwa [h1] at this
  · intro hlt h0
    rw [float64_exact n (by omega)]
    unfold f64div
    have hq0 : (n : ℚ) / 1000000000 ≤ 0 := by
      apply div_nonpos_of_nonpos_of_nonneg _ (by norm_num)
      exact_mod_cast h0
    have hq1 : (-1 : ℚ) ≤ (n : ℚ) / 1000000000 := by
      rw [le_div_iff₀ (by norm_num)]
      have : (-1000000000 : ℚ) ≤ n := by exact_mod_cast le_of_lt hlt
      linarith
    have hA := roundF64_mono hq1
    rw [roundF64_neg, h1] at hA
    have hB := roundF64_mono hq0
    rw [roundF64_zero] at hB
    exact ⟨hA, hB⟩

/-- The seconds of a duration do not decrease with the duration, for
durations in the range of `time.Duration` (64 bits). -/
theorem Seconds_mono (d₁ d₂ : Int) (hlo : -2 ^ 63 ≤ d₁) (hhi : d₂ < 2 ^ 63) (h : d₁ ≤ d₂) :
    Seconds d₁ ≤ Seconds d₂ := by
  obtain ⟨e1, p1, n1⟩ := tdiv_tmod_Second d₁
  obtain ⟨e2, p2, n2⟩ := tdiv_tmod_Second d₂
  have hS : Second = 1000000000 := rfl
  rw [hS] at e1 p1 n1 e2 p2 n2
  unfold Seconds f64add
  simp only [hS]
  apply roundF64_mono
  generalize hs1 : d₁.tdiv 1000000000 = s1 at *
  generalize hr1 : d₁.tmod 1000000000 = r1 at *
  generalize hs2 : d₂.tdiv 1000000000 = s2 at *
  generalize hr2 : d₂.tmod 1000000000 = r2 at *
  have hr1b : -1000000000 < r1 ∧ r1 < 1000000000 := by
    rcases le_or_lt 0 d₁ with h0 | h0
    · have := p1 h0; omega
    · have := n1 h0; omega
  have hr2b : -1000000000 < r2 ∧ r2 < 1000000000 := by
    rcases le_or_lt 0 d₂ with h0 | h0
    · have := p2 h0; omega
    · have := n2 h0; omega
  rw [float64_exact s1 (by omega), float64_exact s2 (by omega)]
  have hs : s1 ≤ s2 := by
    rcases le_or_lt 0 d₁ with h0 | h0
    · have := p1 h0
      have := p2 (by omega)
      omega
    · have := n1 h0
      rcases le_or_lt 0 d₂ with h02 | h02
      · have := p2 h02
        omega
      · have := n2 h02
        omega
  rcases lt_or_eq_of_le hs with hlt | heq
  · have hgap : (s1 : ℚ) + 1 ≤ s2 := by exact_mod_cast hlt
    have hB : f64div (float64 r1) 1000000000 - f64div (float64 r2) 1000000000 ≤ 1 := by
      rcases le_or_lt 0 d₁ with h0 | h0
      · have a1 := p1 h0
        have a2 := p2 (by omega)
        have b1 := (fraction_bounds r1).1 a1.1 a1.2
        have b2 := (fraction_bounds r2).1 a2.1 a2.2
        linarith
      · have a1 := n1 h0
        have b1 := (fraction_bounds r1).2 a1.1 a1.2
        rcases le_or_lt 0 d₂ with h02 | h02
        · have a2 := p2 h02
          have b2 := (fraction_bounds r2).1 a2.1 a2.2
          linarith
        · have a2 := n2 h02
          have b2 := (fraction_bounds r2).2 a2.1 a2.2
          linarith
    linarith
  · have hr : r1 ≤ r2 := by omega
    rw [heq]
    have hq : (float64 r1) / 1000000000 ≤ (float64 r2) / 1000000000 := by
      rw [float64_exact r1 (by omega), float64_exact r2 (by omega)]
      apply div_le_div_of_nonneg_right _ (by norm_num)
      exact_mod_cast hr
    have := roundF64_mono hq
    unfold f64div
    linarith

/-! ## The effort classifier -/

/-- C1: a result that did not pass is classified "poor", whatever its tokens,
its duration and the budgets of the benchmark. -/
theorem categorizeEffort_not_passed (r : Result) (b : Benchmark)
    (h : r.Passed = false) : categorizeEffort r b = "poor" := by
  simp [categorizeEffort, h]

/-- C1 at the case "Poor effort - failed" of `TestCategorizeEffort`: 5 tokens
in 2 s, within both budgets, not passed. -/
theorem categorizeEffort_not_passed_witness :
    categorizeEffort
      { Name := "TestBench", Passed := false, TokensUsed := 5, Duration := 2 * Second }
      testBench = "poor" :=
  categorizeEffort_not_passed _ _ rfl

/-- C2: a passed result whose tokens are at most `MaxTokens` and whose
duration in seconds (`Duration.Seconds()`) is at most `float64(MaxDuration)` is
classified "good"; both bounds are inclusive. -/
theorem categorizeEffort_good (r : Result) (b : Benchmark)
    (hp : r.Passed = true) (ht : r.TokensUsed ≤ b.MaxTokens)
    (hd : Seconds r.Duration ≤ float64 b.MaxDuration) :
    categorizeEffort r b = "good" := by
  simp [categorizeEffort, hp, ht, hd]

/-- C2 exactly at the limits: 10 tokens and 5 s against budgets 10 and 5. -/
theorem categorizeEffort_good_witness :
    categorizeEffort
      { Name := "TestBench", Passed := true, TokensUsed := 10, Duration := 5 * Second }
      testBench = "good" :=
  categorizeEffort_good _ _ rfl (by decide) (by decide!)

/-- For a passed result that fails the "good" test, and a token budget whose
double is a Go `int` (`-2^62 ≤ MaxTokens < 2^62`), the classifier returns
"medium" when tokens are at most `2 * MaxTokens` and the seconds at most
`float64(MaxDuration)*2`, and "poor" otherwise. -/
theorem categorizeEffort_not_good (r : Result) (b : Benchmark)
    (hp : r.Passed = true)
    (hg : ¬ (r.TokensUsed ≤ b.MaxTokens ∧ Seconds r.Duration ≤ float64 b.MaxDuration))
    (hlo : -2 ^ 62 ≤ b.MaxTokens) (hhi : b.MaxTokens < 2 ^ 62) :
    categorizeEffort r b =
      if r.TokensUsed ≤ 2 * b.MaxTokens
          ∧ Seconds r.Duration ≤ f64mul (float64 b.MaxDuration) 2
      then "medium" else "poor" := by
  have hw : wrap64 (b.MaxTokens * 2) = 2 * b.MaxTokens := by
    unfold wrap64
    omega
  simp only [categorizeEffort, hp, hw, if_neg hg]
  simp

/-- C3, where the code leaves it: with `MaxTokens = 2^62` the product
`b.MaxTokens*2` wraps to `-2^63`, so a passed result of `2^62 + 1` tokens and
zero duration (over the token budget by one, within twice the budget, within
the duration budget) is classified "poor", not "medium". -/
theorem categorizeEffort_double_wraps :
    (2 : Int) ^ 62 < 2 ^ 62 + 1 ∧ (2 : Int) ^ 62 + 1 ≤ 2 * 2 ^ 62
      ∧ Seconds 0 ≤ f64mul (float64 5) 2
      ∧ wrap64 (2 ^ 62 * 2) = -2 ^ 63
      ∧ categorizeEffort
          { Name := "TestBench", Passed := true, TokensUsed := 2 ^ 62 + 1, Duration := 0 }
          { Name := "TestBench", Prompt := "test", MaxTokens := 2 ^ 62, MaxDuration := 5 }
        = "poor" := by
  refine ⟨by decide, by decide, by decide!, by decide, by decide!⟩

/-! ## Running one benchmark -/

/-- C4: when the process starts and exits before the timer fires, the result
carries the elapsed time and passes exactly when its tokens are at most
`MaxTokens`, its duration in fractional seconds (`Duration.Seconds()`, not
truncated) is at most `float64(MaxDuration)`, and `cmd.Wait()` returned nil. -/
theorem RunClaudeBenchmark_done_passed (b : Benchmark) (db : Option Storage) (w : World)
    (waitErr : Option String) (elapsed : Int) (output : String)
    (hs : w.startErr = none) (hr : w.race = .done waitErr elapsed output) :
    (RunClaudeBenchmark b db w).1.Duration = elapsed
      ∧ ((RunClaudeBenchmark b db w).1.Passed = true ↔
          (RunClaudeBenchmark b db w).1.TokensUsed ≤ b.MaxTokens
            ∧ Seconds (RunClaudeBenchmark b db w).1.Duration ≤ float64 b.MaxDuration
            ∧ waitErr = none) := by
  cases waitErr <;> simp [RunClaudeBenchmark, raceResult, hs, hr]

/-- C4 one nanosecond over the budget: 1 token after 5.000000001 s against
budgets 10 and 5 does not pass, although 5 whole seconds would. -/
theorem RunClaudeBenchmark_done_passed_witness :
    (RunClaudeBenchmark testBench none
        { startErr := none, race := .done none (5 * Second + 1) "5050", rnd := 0, now := testNow }
      ).1.Passed = false
      ∧ ¬ Seconds (5 * Second + 1) ≤ float64 5 ∧ Seconds (5 * Second) ≤ float64 5 := by
  have h := RunClaudeBenchmark_done_passed testBench none
    { startErr := none, race := .done none (5 * Second + 1) "5050", rnd := 0, now := testNow }
    none (5 * Second + 1) "5050" rfl rfl
  have hn : ¬ Seconds (5 * Second + 1) ≤ float64 5 := by decide!
  refine ⟨?_, hn, by decide!⟩
  rw [← Bool.not_eq_true]
  intro hp
  have h2 := (h.2.1 hp).2.1
  rw [h.1] at h2
  exact hn h2

/-- C5: when the process starts and the timer fires first, the result names
the benchmark, did not pass, has 0 tokens, output "Timed out" and effort
"poor"; its duration is the elapsed time. -/
theorem RunClaudeBenchmark_timeout (b : Benchmark) (db : Option Storage) (w : World)
    (elapsed : Int) (hs : w.startErr = none) (hr : w.race = .timer elapsed) :
    (RunClaudeBenchmark b db w).1.Name = b.Name
      ∧ (RunClaudeBenchmark b db w).1.Passed = false
      ∧ (RunClaudeBenchmark b db w).1.TokensUsed = 0
      ∧ (RunClaudeBenchmark b db w).1.Duration = elapsed
      ∧ (RunClaudeBenchmark b db w).1.Output = "Timed out"
      ∧ (RunClaudeBenchmark b db w).1.Effort = "poor" := by
  simp [RunClaudeBenchmark, raceResult, categorizeEffort, hs, hr]

/-- C5 for the test benchmark, the timer firing after 5.0002 s. -/
theorem RunClaudeBenchmark_timeout_witness :
    (RunClaudeBenchmark testBench none
        { startErr := none, race := .timer 5000200000, rnd := 7, now := testNow }).1.Name
        = "TestBench"
      ∧ (RunClaudeBenchmark testBench none
        { startErr := none, race := .timer 5000200000, rnd := 7, now := testNow }).1.Passed
        = false
      ∧ (RunClaudeBenchmark testBench none
        { startErr := none, race := .timer 5000200000, rnd := 7, now := testNow }).1.TokensUsed
        = 0
      ∧ (RunClaudeBenchmark testBench none
        { startErr := none, race := .timer 5000200000, rnd := 7, now := testNow }).1.Duration
        = 5000200000
      ∧ (RunClaudeBenchmark testBench none
        { startErr := none, race := .timer 5000200000, rnd := 7, now := testNow }).1.Output
        = "Timed out"
      ∧ (RunClaudeBenchmark testBench none
        { startErr := none, race := .timer 5000200000, rnd := 7, now := testNow }).1.Effort
        = "poor" :=
  RunClaudeBenchmark_timeout testBench none
    { startErr := none, race := .timer 5000200000, rnd := 7, now := testNow } 5000200000 rfl rfl

/-- C6: when `cmd.Start()` fails with an error of text `e`, the result names
the benchmark, did not pass, has 0 tokens, zero duration, effort "poor" and
output `e`; the way the race would resolve plays no part in it. -/
theorem RunClaudeBenchmark_start_failed (b : Benchmark) (db : Option Storage) (w : World)
    (e : String) (hs : w.startErr = some e) :
    (RunClaudeBenchmark b db w).1
        = { Name := b.Name, Passed := false, TokensUsed := 0, Duration := 0,
            Quote := RandomQuoteByEffort "poor" w.rnd, Effort := "poor", Output := e }
      ∧ ∀ race : Race,
          RunClaudeBenchmark b db { w with race := race } = RunClaudeBenchmark b db w := by
  simp [RunClaudeBenchmark, hs]

/-- C6 for the test benchmark and the error of a missing executable. -/
theorem RunClaudeBenchmark_start_failed_witness :
    (RunClaudeBenchmark testBench none
        { startErr := some "exec: \"claude\": executable file not found in $PATH",
          race := .timer 0, rnd := 1, now := testNow }).1.Output
      = "exec: \"claude\": executable file not found in $PATH" :=
  congrArg Result.Output
    (RunClaudeBenchmark_start_failed testBench none
      { startErr := some "exec: \"claude\": executable file not found in $PATH",
        race := .timer 0, rnd := 1, now := testNow } _ rfl).1

/-- C10: on each path of `RunClaudeBenchmark` (start failure, timeout,
completion), the elapsed time of an entered race being non-negative, the result
has `TokensUsed ≥ 0`, `Duration ≥ 0`, an effort among "good", "medium" and
"poor", and effort "poor" whenever it did not pass. -/
theorem RunClaudeBenchmark_invariant (b : Benchmark) (db : Option Storage) (w : World)
    (he : w.startErr = none → 0 ≤ w.race.elapsed) :
    0 ≤ (RunClaudeBenchmark b db w).1.TokensUsed
      ∧ 0 ≤ (RunClaudeBenchmark b db w).1.Duration
      ∧ ((RunClaudeBenchmark b db w).1.Effort = "good"
          ∨ (RunClaudeBenchmark b db w).1.Effort = "medium"
          ∨ (RunClaudeBenchmark b db w).1.Effort = "poor")
      ∧ ((RunClaudeBenchmark b db w).1.Passed = false →
          (RunClaudeBenchmark b db w).1.Effort = "poor") := by
  rcases hs : w.startErr with _ | e
  · have he0 := he hs
    rcases hr : w.race with elapsed | ⟨waitErr, elapsed, output⟩
    · rw [hr] at he0
      simpa [RunClaudeBenchmark, raceResult, categorizeEffort, hs, hr] using he0
    · rw [hr] at he0
      simp only [Race.elapsed] at he0
      refine ⟨?_, ?_, ?_, ?_⟩
      · simp [RunClaudeBenchmark, raceResult, hs, hr]
      · simpa [RunClaudeBenchmark, raceResult, hs, hr] using he0
      · simp only [RunClaudeBenchmark, hs, categorizeEffort]
        split_ifs <;> simp
      · intro hp
        simp only [RunClaudeBenchmark, hs] at hp ⊢
        simp [categorizeEffort, hp]
  · simp [RunClaudeBenchmark, hs]

/-- C10 on the completion path: 4 words after 3 s against budgets 10 and 5. -/
theorem RunClaudeBenchmark_invariant_witness :
    0 ≤ (RunClaudeBenchmark testBench none
          { startErr := none, race := .done none (3 * Second) "the sum is 5050\n",
            rnd := 2, now := testNow }).1.TokensUsed
      ∧ (RunClaudeBenchmark testBench none
          { startErr := none, race := .done none (3 * Second) "the sum is 5050\n",
            rnd := 2, now := testNow }).1.Effort = "good" := by
  have h := RunClaudeBenchmark_invariant testBench none
    { startErr := none, race := .done none (3 * Second) "the sum is 5050\n",
      rnd := 2, now := testNow } (fun _ => by decide)
  exact ⟨h.1, by decide!⟩

/-! ## Rolling statistics -/

/-- The sum of a column read as rationals is the integer sum of the column. -/
theorem sum_map_intCast (rows : List Row) (f : Row → Int) :
    (rows.map (fun r => ((f r : Int) : ℚ))).sum = (((rows.map f).sum : Int) : ℚ) := by
  induction rows with
  | nil => simp
  | cons a t ih => simp [ih]

/-- The sum of the `CASE WHEN passed = 1 THEN 1.0 ELSE 0.0 END` column is the
number of rows with `passed = 1`. -/
theorem sum_map_passed (rows : List Row) :
    (rows.map (fun r => if r.passed = 1 then (1 : ℚ) else 0)).sum
      = (((rows.countP (fun r => r.passed = 1) : Nat) : Int) : ℚ) := by
  induction rows with
  | nil => simp
  | cons a t ih =>
    by_cases h : a.passed = 1
    · simp [h, ih, List.countP_cons, add_comm]
    · simp [h, ih, List.countP_cons]

/-- The means do not depend on the order of the rows. -/
theorem windowMeans_perm {l₁ l₂ : List Row} (h : l₁.Perm l₂) :
    windowMeans l₁ = windowMeans l₂ := by
  unfold windowMeans
  rw [(h.map (fun r => r.tokens_used)).sum_eq, (h.map (fun r => r.duration_ms)).sum_eq,
    h.countP_eq, h.length_eq]

/-- What `GetRollingStats` returns, by the rows its inner `SELECT` yields: all
zeros over no row, the means over the rows otherwise; never an error. -/
theorem GetRollingStats_eq (s : Storage) (benchmarkName : String) (window : Int) :
    GetRollingStats s benchmarkName window
      = .ok (if selectWindow s benchmarkName window = [] then (0, 0, 0)
             else windowMeans (selectWindow s benchmarkName window)) := by
  unfold GetRollingStats
  rcases hsel : selectWindow s benchmarkName window with _ | ⟨a, t⟩
  · simp [sqlAvg, coalesce, scanFloat64, f64div, roundF64_zero]
  · simp only [sqlAvg, coalesce, scanFloat64, windowMeans, List.isEmpty_cons, List.map_cons,
      Bool.false_eq_true, if_false, List.length_map, reduceCtorEq]
    rw [← List.map_cons (fun r : Row => (r.tokens_used : ℚ)),
      ← List.map_cons (fun r : Row => (r.duration_ms : ℚ)),
      ← List.map_cons (fun r : Row => if r.passed = 1 then (1 : ℚ) else 0),
      sum_map_intCast, sum_map_intCast, sum_map_passed]
    simp only [float64, List.length_map, List.map_cons, List.length_cons]

/-- The descending sort is a rearrangement of its input. -/
theorem orderByTimestampDesc_perm (rows : List Row) :
    (orderByTimestampDesc rows).Perm rows :=
  List.perm_insertionSort _ rows

/-- With a window of at least 1 the inner `SELECT` yields the first `window`
rows of the descending sort of the rows of the name. -/
theorem selectWindow_eq_take (s : Storage) (benchmarkName : String) (window : Int)
    (hw : 1 ≤ window) :
    selectWindow s benchmarkName window
      = (orderByTimestampDesc (rowsNamed s benchmarkName)).take window.toNat := by
  have h : ¬ window < 0 := by omega
  simp [selectWindow, limit, rowsNamed, h]

/-- C7: for a name without stored outcome, whatever the window and the
outcomes stored under other names, `GetRollingStats` returns average tokens 0,
average duration 0, pass rate 0 and no error. -/
theorem GetRollingStats_no_data (s : Storage) (benchmarkName : String) (window : Int)
    (h : ∀ r ∈ s.rows, r.name ≠ benchmarkName) :
    GetRollingStats s benchmarkName window = .ok (0, 0, 0) := by
  have hf : s.rows.filter (fun r => r.name = benchmarkName) = [] := by
    rw [List.filter_eq_nil_iff]
    intro r hr
    simpa using h r hr
  have hsel : selectWindow s benchmarkName window = [] := by
    simp [selectWindow, hf, orderByTimestampDesc, limit]
  rw [GetRollingStats_eq, if_pos hsel]

/-- C7 as `TestGetRollingStatsNoData` asks it, on a store that holds four
outcomes of another name. -/
theorem GetRollingStats_no_data_witness :
    statsStore.rows.length = 4
      ∧ GetRollingStats statsStore "NonExistent" 10 = .ok (0, 0, 0) :=
  ⟨by decide, GetRollingStats_no_data statsStore "NonExistent" 10 (by decide)⟩

/-- C8: with `k` outcomes stored for the name, `1 ≤ k ≤ window`,
`GetRollingStats` returns (sum of tokens)/k, (sum of stored milliseconds)/k/1000
and (number of passed outcomes)/k, in float64 arithmetic: the divisor is `k`,
not `window`. -/
theorem GetRollingStats_fewer_than_window (s : Storage) (benchmarkName : String)
    (window : Int) (hk : 1 ≤ (rowsNamed s benchmarkName).length)
    (hw : ((rowsNamed s benchmarkName).length : Int) ≤ window) :
    GetRollingStats s benchmarkName window
      = .ok
        (f64div (float64 ((rowsNamed s benchmarkName).map (fun r => r.tokens_used)).sum)
           (float64 ((rowsNamed s benchmarkName).length : Int)),
         f64div
           (f64div (float64 ((rowsNamed s benchmarkName).map (fun r => r.duration_ms)).sum)
             (float64 ((rowsNamed s benchmarkName).length : Int)))
           1000,
         f64div
           (float64 (((rowsNamed s benchmarkName).countP (fun r => r.passed = 1) : Nat) : Int))
           (float64 ((rowsNamed s benchmarkName).length : Int))) := by
  have hperm := orderByTimestampDesc_perm (rowsNamed s benchmarkName)
  have hsel : selectWindow s benchmarkName window
      = orderByTimestampDesc (rowsNamed s benchmarkName) := by
    rw [selectWindow_eq_take s benchmarkName window (by omega)]
    apply List.take_of_length_le
    rw [hperm.length_eq]
    omega
  have hne : selectWindow s benchmarkName window ≠ [] := by
    rw [hsel]
    intro h0
    rw [← hperm.length_eq, h0] at hk
    simp at hk
  rw [GetRollingStats_eq, if_neg hne, hsel, windowMeans_perm hperm]
  rfl

/-- C8 on the store of `TestGetRollingStats`: tokens 10, 12, 20, 8, passed
true, true, false, true, durations 1, 2, 3, 1 s, window 10 give 12.5, 1.75 and
0.75. -/
theorem GetRollingStats_fewer_than_window_witness :
    GetRollingStats statsStore "Sum1to100" 10 = .ok (25 / 2, 7 / 4, 3 / 4) := by
  rw [GetRollingStats_fewer_than_window statsStore "Sum1to100" 10 (by decide) (by decide)]
  exact congrArg Except.ok (by decide!)

/-- The claim's example holds of the code: on the store of
`TestGetRollingStatsWithWindow`, five outcomes with 10 tokens, passed, written
one second apart in one location, window 3 gives average tokens 10, average
duration 1 s and pass rate 1. -/
theorem GetRollingStats_windowStore :
    (rowsNamed windowStore "TestWindow").length = 5
      ∧ GetRollingStats windowStore "TestWindow" 3 = .ok (10, 1, 1) := by
  refine ⟨by decide, ?_⟩
  rw [GetRollingStats_eq]
  exact congrArg Except.ok (by decide!)

/-- C9, where the code leaves it: the rows are ordered by the stored text of
the timestamp, which begins with the wall clock of the location.  The two runs
of `dstRecords` are stored under the texts "2024-11-03 01:30:00-04:00" and
"2024-11-03 01:10:00-05:00"; the second run is the later one, yet its text is
the lesser, so with window 1 `GetRollingStats` returns the means of the first,
older run, (100, 1, 1), where the means over the most recent outcome are
(200, 2, 0). -/
theorem GetRollingStats_window_by_text :
    dstRecords.map (fun r => (r.TokensUsed, r.Timestamp.unixNano))
        = [(100, 1730611800000000000), (200, 1730614200000000000)]
      ∧ (rowsNamed dstStore "D").map (fun r => (r.tokens_used, r.timestamp))
        = [(100, "2024-11-03 01:30:00-04:00"), (200, "2024-11-03 01:10:00-05:00")]
      ∧ textLt "2024-11-03 01:10:00-05:00" "2024-11-03 01:30:00-04:00" = true
      ∧ GetRollingStats dstStore "D" 1 = .ok (100, 1, 1)
      ∧ windowMeans ((rowsNamed dstStore "D").filter (fun r => r.tokens_used = 200))
        = (200, 2, 0) := by
  refine ⟨by decide, by decide, by decide, ?_, by decide!⟩
  rw [GetRollingStats_eq]
  exact congrArg Except.ok (by decide!)

/-! ## Words of an output -/

/-- The run starts of `c :: cs`: one for `c` when it is not white space and
white space comes before it, then the run starts of `cs` after `c`. -/
theorem runStartsFrom_cons (prevSpace : Bool) (c : Char) (cs : List Char) :
    runStartsFrom prevSpace (c :: cs)
      = (if !isSpace c && prevSpace then 1 else 0) + runStartsFrom (isSpace c) cs := by
  unfold runStartsFrom
  rw [List.length_cons, List.range_succ_eq_map, List.countP_cons, List.countP_map, add_comm]
  have hrest : List.countP
        ((fun i => !isSpace ((c :: cs).getD i ' ')
            && (if i = 0 then prevSpace else isSpace ((c :: cs).getD (i - 1) ' '))) ∘ Nat.succ)
        (List.range cs.length)
      = List.countP (fun i => !isSpace (cs.getD i ' ')
            && (if i = 0 then isSpace c else isSpace (cs.getD (i - 1) ' ')))
        (List.range cs.length) := by
    apply List.countP_congr
    intro i _
    cases i with
    | zero => simp
    | succ j => simp
  rw [hrest]
  simp

/-- The number of fields the scan yields: one for a field being read, and one
for each run that starts later. -/
theorem length_fieldsAux (cs cur : List Char) :
    (fieldsAux cs cur).length
      = (if cur.isEmpty then 0 else 1) + runStartsFrom cur.isEmpty cs := by
  induction cs generalizing cur with
  | nil => cases cur <;> simp [fieldsAux, runStartsFrom]
  | cons c cs ih =>
    rw [runStartsFrom_cons]
    by_cases hc : isSpace c = true
    · cases cur with
      | nil => simp [fieldsAux, hc, ih]
      | cons a t => simp [fieldsAux, hc, ih, add_comm]
    · cases cur with
      | nil => simp [fieldsAux, hc, ih]
      | cons a t => simp [fieldsAux, hc, ih]

/-- The number of fields of `strings.Fields` is the number of words. -/
theorem length_Fields (s : String) : (Fields s).length = wordCount s := by
  simp [Fields, wordCount, length_fieldsAux]

/-- C11: when the process starts and exits before the timer fires, the tokens
of the result are the number of fields `strings.Fields` finds in the captured,
untrimmed output, which is the number of its whitespace-separated words
(maximal runs of non-white-space characters); the count depends on the output
alone. -/
theorem RunClaudeBenchmark_tokens (b : Benchmark) (db : Option Storage) (w : World)
    (waitErr : Option String) (elapsed : Int) (output : String)
    (hs : w.startErr = none) (hr : w.race = .done waitErr elapsed output) :
    (RunClaudeBenchmark b db w).1.TokensUsed = ((Fields output).length : Int)
      ∧ (RunClaudeBenchmark b db w).1.TokensUsed = (wordCount output : Int) := by
  have h : (RunClaudeBenchmark b db w).1.TokensUsed = ((Fields output).length : Int) := by
    simp [RunClaudeBenchmark, raceResult, hs, hr]
  exact ⟨h, by rw [h, length_Fields]⟩

/-- C11 on an output of four words between spaces, a tab and line ends. -/
theorem RunClaudeBenchmark_tokens_witness :
    (RunClaudeBenchmark testBench none
        { startErr := none, race := .done none (3 * Second) "  the sum\tis  5050\n",
          rnd := 0, now := testNow }).1.TokensUsed = 4
      ∧ Fields "  the sum\tis  5050\n" = ["the", "sum", "is", "5050"] := by
  have h := (RunClaudeBenchmark_tokens testBench none
    { startErr := none, race := .done none (3 * Second) "  the sum\tis  5050\n",
      rnd := 0, now := testNow } none (3 * Second) "  the sum\tis  5050\n" rfl rfl).1
  refine ⟨?_, by decide⟩
  rw [h]
  decide

/-! ## The persisted record -/

/-- C12 as the code has it: with a non-nil store, `RunClaudeBenchmark` appends
one row that carries the name, the passed flag (1 or 0), the tokens used, the
duration in whole milliseconds, the quote, the output text and the time of
saving as its text, the quote being the one drawn for the effort of the result; the effort
label itself is no part of the row, and with a nil store nothing is saved. -/
theorem RunClaudeBenchmark_saved_row (b : Benchmark) (s : Storage) (w : World) :
    (RunClaudeBenchmark b (some s) w).2
        = some { rows := s.rows ++
            [{ id := (s.rows.length : Int) + 1
               name := (RunClaudeBenchmark b (some s) w).1.Name
               passed := if (RunClaudeBenchmark b (some s) w).1.Passed then 1 else 0
               tokens_used := (RunClaudeBenchmark b (some s) w).1.TokensUsed
               duration_ms := Milliseconds (RunClaudeBenchmark b (some s) w).1.Duration
               quote := (RunClaudeBenchmark b (some s) w).1.Quote
               output := (RunClaudeBenchmark b (some s) w).1.Output
               timestamp := formatTimestamp w.now }] }
      ∧ (RunClaudeBenchmark b (some s) w).1.Quote
          = RandomQuoteByEffort (RunClaudeBenchmark b (some s) w).1.Effort w.rnd
      ∧ (RunClaudeBenchmark b none w).2 = none := by
  rcases hs : w.startErr with _ | e <;>
    simp [RunClaudeBenchmark, saveResult, InsertRecord, hs]

/-- C12 as stated fails: a run of the test benchmark that passes in 3 s has
effort "good", and the one row it saves holds the name, 1, 1 token, 3000 ms,
a quote, the output and the timestamp, none of its columns being the label
"good". -/
theorem RunClaudeBenchmark_saved_row_lacks_effort :
    (RunClaudeBenchmark testBench (some { rows := [] })
        { startErr := none, race := .done none (3 * Second) "5050", rnd := 0, now := testNow }
      ).1.Effort = "good"
      ∧ (RunClaudeBenchmark testBench (some { rows := [] })
        { startErr := none, race := .done none (3 * Second) "5050", rnd := 0, now := testNow }
      ).2 = some { rows :=
          [{ id := 1, name := "TestBench", passed := 1, tokens_used := 1,
             duration_ms := 3000,
             quote := "Now we're getting somewhere — that's the baseline competence I expect.",
             output := "5050", timestamp := "2024-10-27 03:33:20+00:00" }] }
      ∧ "TestBench" ≠ "good"
      ∧ "Now we're getting somewhere — that's the baseline competence I expect." ≠ "good"
      ∧ "5050" ≠ "good" := by
  refine ⟨by decide!, by decide!, by decide, by decide, by decide⟩

/-! ## The table of benchmarks -/

/-- C14: the table `Benchmarks` is not empty, each of its entries has a
non-empty name, a non-empty prompt, `MaxTokens > 0` and `MaxDuration > 0`, and
the names are pairwise distinct. -/
theorem Benchmarks_well_formed :
    Benchmarks ≠ []
      ∧ (∀ b ∈ Benchmarks,
          b.Name ≠ "" ∧ b.Prompt ≠ "" ∧ 0 < b.MaxTokens ∧ 0 < b.MaxDuration)
      ∧ (Benchmarks.map (fun b => b.Name)).Nodup := by
  refine ⟨by decide, by decide, by decide⟩

/-! ## Validation of the configuration -/

/-- What `validate` accepts: a non-empty interval that parses, a non-empty
database path and model, a positive rolling window, and a warning threshold
that is between 0 and 1 or is NaN. -/
theorem validate_eq_none_iff (ParseDuration : String → Except String Int) (c : Config) :
    validate ParseDuration c = none ↔
      c.Daemon.Interval ≠ "" ∧ (∃ d, ParseDuration c.Daemon.Interval = .ok d)
        ∧ c.Daemon.DBPath ≠ "" ∧ c.Claude.Model ≠ ""
        ∧ 0 < c.Monitoring.RollingWindow
        ∧ (Float64.between 0 1 c.Monitoring.WarningThreshold
            ∨ c.Monitoring.WarningThreshold = .nan) := by
  unfold validate
  by_cases h1 : c.Daemon.Interval = ""
  · simp [h1]
  · rcases hp : ParseDuration c.Daemon.Interval with err | d
    · simp [h1]
    · by_cases h2 : c.Daemon.DBPath = ""
      · simp [h1, h2]
      · by_cases h3 : c.Claude.Model = ""
        · simp [h1, h2, h3]
        · by_cases h4 : c.Monitoring.RollingWindow ≤ 0
          · simp [h1, h2, h3, h4]
          · have h4b : 0 < c.Monitoring.RollingWindow := by omega
            rcases hw : c.Monitoring.WarningThreshold with q | _ | _ | _
            · simp [h1, h2, h3, h4, h4b, Float64.lt, Float64.between]
            · simp [h1, h2, h3, h4, Float64.lt, Float64.between]
            · simp [h1, h2, h3, h4, Float64.lt, Float64.between]
            · simp [h1, h2, h3, h4, h4b, Float64.lt, Float64.between]

/-- C15, where the code leaves it: a NaN warning threshold passes both
comparisons `< 0` and `> 1`, so the valid test configuration with threshold
NaN is validated exactly like the one with threshold 0.7, and accepted when
the interval parses, although NaN is not between 0 and 1. -/
theorem validate_accepts_nan (ParseDuration : String → Except String Int) :
    validate ParseDuration (testConfig .nan)
        = validate ParseDuration (testConfig (.finite (7 / 10)))
      ∧ validate (fun _ => .ok (30 * 60 * Second)) (testConfig .nan) = none
      ∧ ¬ Float64.between 0 1 .nan := by
  refine ⟨?_, ?_, ?_⟩
  · have h7a : ¬ ((7 : ℚ) / 10 < 0) := by norm_num
    have h7b : ¬ ((1 : ℚ) < 7 / 10) := by norm_num
    simp [validate, testConfig, Float64.lt, h7a, h7b]
  · simp [validate, testConfig, Float64.lt]
  · simp [Float64.between]

/-! ## Effort on the paths of a run -/

/-- C16: on each path of `RunClaudeBenchmark` and for every benchmark, the
effort of the result is "good" when it passed and "poor" when it did not; the
pipeline never yields "medium". -/
theorem RunClaudeBenchmark_effort (b : Benchmark) (db : Option Storage) (w : World) :
    (RunClaudeBenchmark b db w).1.Effort
      = if (RunClaudeBenchmark b db w).1.Passed then "good" else "poor" := by
  rcases hs : w.startErr with _ | e
  · rcases hr : w.race with elapsed | ⟨waitErr, elapsed, output⟩
    · simp [RunClaudeBenchmark, raceResult, categorizeEffort, hs, hr]
    · simp only [RunClaudeBenchmark, raceResult, categorizeEffort, hs, hr]
      cases waitErr with
      | some e => simp
      | none =>
        by_cases hg : ((Fields output).length : Int) ≤ b.MaxTokens
            ∧ Seconds elapsed ≤ float64 b.MaxDuration
        · simp [hg]
        · simp [hg]
  · simp [RunClaudeBenchmark, hs]

/-! ## Monotonicity of the classifier -/

/-- C17: for one benchmark and two results with the same passed flag, the
first with no more tokens and no longer duration than the second (durations in
the 64-bit range of `time.Duration`), the tier of the first is no worse than
the tier of the second, in the order good, medium, poor; this holds for the
doubled budget as the code computes it, so also where the doubling does not
overflow. -/
theorem categorizeEffort_mono (r₁ r₂ : Result) (b : Benchmark)
    (hp : r₁.Passed = r₂.Passed) (ht : r₁.TokensUsed ≤ r₂.TokensUsed)
    (hd : r₁.Duration ≤ r₂.Duration)
    (hlo : -2 ^ 63 ≤ r₁.Duration) (hhi : r₂.Duration < 2 ^ 63) :
    tierRank (categorizeEffort r₁ b) ≤ tierRank (categorizeEffort r₂ b) := by
  have hsec := Seconds_mono r₁.Duration r₂.Duration hlo hhi hd
  unfold categorizeEffort
  rw [hp]
  by_cases hpass : r₂.Passed = true
  · simp only [hpass, Bool.not_true, Bool.false_eq_true, if_false]
    by_cases hg2 : r₂.TokensUsed ≤ b.MaxTokens ∧ Seconds r₂.Duration ≤ float64 b.MaxDuration
    · have hg1 : r₁.TokensUsed ≤ b.MaxTokens ∧ Seconds r₁.Duration ≤ float64 b.MaxDuration :=
        ⟨le_trans ht hg2.1, le_trans hsec hg2.2⟩
      rw [if_pos hg1, if_pos hg2]
    · rw [if_neg hg2]
      by_cases hm2 : r₂.TokensUsed ≤ wrap64 (b.MaxTokens * 2)
          ∧ Seconds r₂.Duration ≤ f64mul (float64 b.MaxDuration) 2
      · have hm1 : r₁.TokensUsed ≤ wrap64 (b.MaxTokens * 2)
            ∧ Seconds r₁.Duration ≤ f64mul (float64 b.MaxDuration) 2 :=
          ⟨le_trans ht hm2.1, le_trans hsec hm2.2⟩
        rw [if_pos hm2, if_pos hm1]
        split_ifs <;> decide
      · rw [if_neg hm2]
        split_ifs <;> decide
  · simp [hpass]

/-- C17 on two cases of `TestCategorizeEffort`: 8 tokens in 3 s is "good",
15 tokens in 6 s is "medium". -/
theorem categorizeEffort_mono_witness :
    tierRank (categorizeEffort
        { Name := "TestBench", Passed := true, TokensUsed := 8, Duration := 3 * Second }
        testBench)
      ≤ tierRank (categorizeEffort
        { Name := "TestBench", Passed := true, TokensUsed := 15, Duration := 6 * Second }
        testBench)
      ∧ categorizeEffort
        { Name := "TestBench", Passed := true, TokensUsed := 8, Duration := 3 * Second }
        testBench = "good"
      ∧ categorizeEffort
        { Name := "TestBench", Passed := true, TokensUsed := 15, Duration := 6 * Second }
        testBench = "medium" :=
  ⟨categorizeEffort_mono _ _ testBench rfl (by decide) (by decide) (by decide) (by decide),
    by decide!, by decide!⟩

/-! ## The pass rate -/

/-- The pass rate over a non-empty set of rows is the float64 quotient of the
number of passed rows by the number of rows, and lies between 0 and 1. -/
theorem passRate_bounds (c k : Nat) (hck : c ≤ k) (hk : 1 ≤ k) :
    0 ≤ f64div (float64 (c : Int)) (float64 (k : Int))
      ∧ f64div (float64 (c : Int)) (float64 (k : Int)) ≤ 1
      ∧ (c = k → f64div (float64 (c : Int)) (float64 (k : Int)) = 1)
      ∧ (c = 0 → f64div (float64 (c : Int)) (float64 (k : Int)) = 0)
      ∧ (k ≤ 2 ^ 53 → c < k → f64div (float64 (c : Int)) (float64 (k : Int)) < 1) := by
  have h1 : roundF64 1 = 1 := by
    have := roundF64_natCast 1 (by norm_num)
    simpa using this
  have hC0 : 0 ≤ float64 (c : Int) := roundF64_nonneg (by positivity)
  have hCK : float64 (c : Int) ≤ float64 (k : Int) :=
    roundF64_mono (by exact_mod_cast hck)
  have hK1 : 1 ≤ float64 (k : Int) := by
    have : roundF64 1 ≤ roundF64 ((k : Int) : ℚ) := roundF64_mono (by exact_mod_cast hk)
    rwa [h1] at this
  have hKpos : 0 < float64 (k : Int) := by linarith
  refine ⟨roundF64_nonneg (div_nonneg hC0 (le_of_lt hKpos)), ?_, ?_, ?_, ?_⟩
  · have : float64 (c : Int) / float64 (k : Int) ≤ 1 := by
      rw [div_le_one hKpos]
      exact hCK
    have h2 := roundF64_mono this
    rwa [h1] at h2
  · intro hc
    unfold f64div
    rw [hc, div_self (ne_of_gt hKpos), h1]
  · intro hc
    unfold f64div
    rw [hc]
    simp [float64, roundF64_zero]
  · intro hk53 hlt
    have hce : float64 (c : Int) = (c : ℚ) := by
      rw [float64_exact (c : Int) (by simp; omega)]
      simp
    have hke : float64 (k : Int) = (k : ℚ) := by
      rw [float64_exact (k : Int) (by simpa using hk53)]
      simp
    have hkQ : (0 : ℚ) < k := by exact_mod_cast hk
    have hq : (c : ℚ) / k ≤ 1 - 1 / 2 ^ 53 := by
      rw [div_le_iff₀ hkQ]
      have hc1 : (c : ℚ) + 1 ≤ k := by exact_mod_cast hlt
      have hk2 : (k : ℚ) ≤ 2 ^ 53 := by exact_mod_cast hk53
      have : (k : ℚ) / 2 ^ 53 ≤ 1 := by
        rw [div_le_one (by positivity)]
        exact hk2
      have hexp : (1 - 1 / 2 ^ 53 : ℚ) * k = k - k / 2 ^ 53 := by ring
      rw [hexp]
      linarith
    have hr : roundF64 (1 - 1 / 2 ^ 53) = 1 - 1 / 2 ^ 53 := by decide!
    have h3 := roundF64_mono hq
    unfold f64div
    rw [hce, hke]
    rw [hr] at h3
    have : (1 - 1 / 2 ^ 53 : ℚ) < 1 := by norm_num
    linarith

/-- The inner `SELECT` yields no more rows than the table holds. -/
theorem length_selectWindow_le (s : Storage) (benchmarkName : String) (window : Int) :
    (selectWindow s benchmarkName window).length ≤ s.rows.length := by
  have h1 : (s.rows.filter (fun r => r.name = benchmarkName)).length ≤ s.rows.length :=
    List.length_filter_le _ _
  have h2 := (orderByTimestampDesc_perm
    (s.rows.filter (fun r => r.name = benchmarkName))).length_eq
  unfold selectWindow limit
  split_ifs
  · omega
  · rw [List.length_take]
    omega

/-- C13: for every store a SQLite database can hold (at most `2^53` rows: a
database file has at most `2^48` bytes), every name and every window, the pass
rate of `GetRollingStats` lies between 0 and 1; it is 1 exactly when the
selected window is not empty and all its outcomes passed, and 0 when the
window is empty or none of its outcomes passed. -/
theorem GetRollingStats_passRate (s : Storage) (benchmarkName : String) (window : Int)
    (hs : s.rows.length ≤ 2 ^ 53) :
    ∃ a d p : ℚ, GetRollingStats s benchmarkName window = .ok (a, d, p)
      ∧ 0 ≤ p ∧ p ≤ 1
      ∧ (p = 1 ↔ selectWindow s benchmarkName window ≠ []
          ∧ ∀ r ∈ selectWindow s benchmarkName window, r.passed = 1)
      ∧ (selectWindow s benchmarkName window = []
          ∨ (∀ r ∈ selectWindow s benchmarkName window, r.passed ≠ 1) → p = 0) := by
  have hlen := length_selectWindow_le s benchmarkName window
  rw [GetRollingStats_eq]
  by_cases hsel : selectWindow s benchmarkName window = []
  · rw [if_pos hsel]
    refine ⟨0, 0, 0, rfl, le_refl _, by norm_num, ?_, ?_⟩
    · constructor
      · intro h
        norm_num at h
      · intro h
        exact absurd hsel h.1
    · intro _
      rfl
  · rw [if_neg hsel]
    generalize selectWindow s benchmarkName window = sel at hsel hlen
    have hk : 1 ≤ sel.length := by
      rcases sel with _ | ⟨a, t⟩
      · exact absurd rfl hsel
      · simp
    have hck : sel.countP (fun r : Row => decide (r.passed = 1)) ≤ sel.length :=
      List.countP_le_length _
    have hb := passRate_bounds (sel.countP (fun r : Row => decide (r.passed = 1))) sel.length
      hck hk
    obtain ⟨b0, b1, bAll, bNone, bLt⟩ := hb
    refine ⟨_, _, _, rfl, b0, b1, ?_, ?_⟩
    · constructor
      · intro hp
        refine ⟨hsel, ?_⟩
        by_contra hnot
        have hlt : sel.countP (fun r : Row => decide (r.passed = 1)) < sel.length := by
          apply lt_of_le_of_ne hck
          intro heq
          apply hnot
          intro r hr
          have := (List.countP_eq_length.1 heq) r hr
          simpa using this
        have := bLt (le_trans hlen hs) hlt
        rw [hp] at this
        exact lt_irrefl _ this
      · intro h
        apply bAll
        rw [List.countP_eq_length]
        intro r hr
        simpa using h.2 r hr
    · intro h
      rcases h with h | h
      · exact absurd h hsel
      · apply bNone
        rw [List.countP_eq_zero]
        intro r hr
        simpa using h r hr

/-- C13 on the store of `TestGetRollingStats`: three of four outcomes passed,
the pass rate 0.75 lies between 0 and 1 and is not 1. -/
theorem GetRollingStats_passRate_witness :
    ∃ a d p : ℚ, GetRollingStats statsStore "Sum1to100" 10 = .ok (a, d, p)
      ∧ 0 ≤ p ∧ p ≤ 1 ∧ p = 3 / 4 := by
  obtain ⟨a, d, p, h, h0, h1, _⟩ :=
    GetRollingStats_passRate statsStore "Sum1to100" 10 (by decide)
  refine ⟨a, d, p, h, h0, h1, ?_⟩
  have hv : GetRollingStats statsStore "Sum1to100" 10 = .ok (25 / 2, 7 / 4, 3 / 4) := by
    rw [GetRollingStats_eq]
    exact congrArg Except.ok (by decide!)
  rw [hv] at h
  injection h with h
  exact (congrArg (fun t : ℚ × ℚ × ℚ => t.2.2) h).symm

end Ripley
